import Mathlib

/-!
Verification of the Marker REST-API fuzzer (shallow embedding).

Python values, dicts and the JSON data flow of the fuzzer are embedded as
Lean definitions translated from the repository sources; the frozen claims
are settled as theorems about those definitions.

Conventions used throughout:
* Python dicts are insertion-ordered association lists `List (String × _)`.
* Python floats are modelled as rationals (`ℚ`); no claim here depends on
  binary rounding.
* Python's RNG is modelled by an oracle `Nat → Nat` consulted with an
  explicit counter; `random.choice l` picks `l[o k % l.length]`.
* Python's `set` has an unspecified iteration order; where the source
  linearizes a set (`list(s)`), the embedding takes the linearization as an
  explicit parameter ranging over permutations.
-/

namespace Fuzzer

/-- Python / JSON runtime values.  `bool` is kept distinct from `int`
because Python's `isinstance(v, int)` is true for bools, which matters for
dispatch order; see `pyIsInt`. -/
inductive PyVal where
  | none : PyVal
  | bool (b : Bool) : PyVal
  | int (n : Int) : PyVal
  | float (q : ℚ) : PyVal
  | str (s : String) : PyVal
  | list (l : List PyVal) : PyVal
  | dict (l : List (String × PyVal)) : PyVal

instance : Inhabited PyVal := ⟨PyVal.none⟩

namespace PyVal

/-- `isinstance(v, int)`: Python bools are ints. -/
def pyIsInt : PyVal → Bool
  | .int _ => true
  | .bool _ => true
  | _ => false

/-- `isinstance(v, bool)`. -/
def pyIsBool : PyVal → Bool
  | .bool _ => true
  | _ => false

/-- `isinstance(v, float)`. -/
def pyIsFloat : PyVal → Bool
  | .float _ => true
  | _ => false

/-- `isinstance(v, str)`. -/
def pyIsStr : PyVal → Bool
  | .str _ => true
  | _ => false

/-- `isinstance(v, (str, int))` as used by the ID harvester: true for
strings, ints and bools. -/
def pyIsStrOrInt : PyVal → Bool
  | .str _ => true
  | .int _ => true
  | .bool _ => true
  | _ => false

/-- Python truthiness (`bool(v)`) for the value forms the fuzzer tests. -/
def truthy : PyVal → Bool
  | .none => false
  | .bool b => b
  | .int n => n != 0
  | .float q => q != 0
  | .str s => s != ""
  | .list l => !l.isEmpty
  | .dict l => !l.isEmpty

end PyVal

/-- Ordered-dict lookup: `d.get(k, default)`. -/
def dictGet (d : List (String × PyVal)) (k : String) (dflt : PyVal) : PyVal :=
  match d.find? (fun p => p.1 == k) with
  | some p => p.2
  | Option.none => dflt

/-- `d.get(k)` returning an option (Python `None` on miss kept separate
from a stored `None`). -/
def dictGet? (d : List (String × PyVal)) (k : String) : Option PyVal :=
  (d.find? (fun p => p.1 == k)).map Prod.snd

/-- `k in d` for a Python dict. -/
def dictHasKey (d : List (String × PyVal)) (k : String) : Bool :=
  d.any (fun p => p.1 == k)

/-- Insert with Python dict semantics: an existing key is overwritten in
place (its position kept), a new key is appended. -/
def dictSet (d : List (String × PyVal)) (k : String) (v : PyVal) :
    List (String × PyVal) :=
  if dictHasKey d k then
    d.map (fun p => if p.1 == k then (k, v) else p)
  else d ++ [(k, v)]

/-- Lookup in a `str → str` dict (headers): `h.get(k, "")`. -/
def strDictGet (d : List (String × String)) (k : String) (dflt : String) :
    String :=
  match d.find? (fun p => p.1 == k) with
  | some p => p.2
  | Option.none => dflt

/-! ### Character predicates

The harvester and the signature normalizer use Python's Unicode-aware
`str.isalnum` / `str.isdigit` / `str.islower`.  The embedding covers the
ASCII range exactly and the Latin-1 letter block (U+00C0–U+00FF minus the
two arithmetic signs), which is enough for every input considered here;
code points above U+00FF are conservatively treated as non-alphanumeric. -/

/-- ASCII decimal digit (`str.isdigit` on the ASCII range). -/
def pyIsDigitChar (c : Char) : Bool :=
  '0' ≤ c && c ≤ '9'

/-- Python `c.isalnum()` on the modelled character range (ASCII exact,
plus Latin-1 letters such as `'é'`). -/
def pyIsAlnumChar (c : Char) : Bool :=
  ('0' ≤ c && c ≤ '9') || ('a' ≤ c && c ≤ 'z') || ('A' ≤ c && c ≤ 'Z') ||
    (0xC0 ≤ c.toNat && c.toNat ≤ 0xFF && c.toNat ≠ 0xD7 && c.toNat ≠ 0xF7)

/-- ASCII lowercase letter. -/
def pyIsLowerChar (c : Char) : Bool :=
  'a' ≤ c && c ≤ 'z'

/-- ASCII cased character (letter). -/
def pyIsCasedChar (c : Char) : Bool :=
  ('a' ≤ c && c ≤ 'z') || ('A' ≤ c && c ≤ 'Z')

/-- Python whitespace used by `str.strip()`. -/
def pyIsSpaceChar (c : Char) : Bool :=
  c == ' ' || c == '\t' || c == '\n' || c == '\r' ||
    c == '\x0b' || c == '\x0c'

/-- `s.isdigit()`: non-empty and all digits. -/
def pyStrIsDigit (s : String) : Bool :=
  s.toList ≠ [] && s.toList.all pyIsDigitChar

/-- `s.isalnum()`: non-empty and all alphanumeric. -/
def pyStrIsAlnum (s : String) : Bool :=
  s.toList ≠ [] && s.toList.all pyIsAlnumChar

/-- `s.islower()`: at least one cased character and no uppercase one
(on the modelled ASCII range). -/
def pyStrIsLower (s : String) : Bool :=
  s.toList.any pyIsCasedChar && s.toList.all (fun c => !pyIsCasedChar c || pyIsLowerChar c)

/-- `s.strip()` (whitespace both ends). -/
def pyStrip (s : String) : String :=
  String.mk ((s.toList.dropWhile pyIsSpaceChar).reverse.dropWhile pyIsSpaceChar |>.reverse)

/-- `s.strip("/")`. -/
def stripSlashes (s : String) : String :=
  String.mk ((s.toList.dropWhile (· == '/')).reverse.dropWhile (· == '/') |>.reverse)

/-- `s.strip("\x7b\x7d")`. -/
def stripBraces (s : String) : String :=
  String.mk ((s.toList.dropWhile (fun c => c == '{' || c == '}')).reverse.dropWhile
    (fun c => c == '{' || c == '}') |>.reverse)

/-- `a.isPrefixOf b` on character lists. -/
def isPre : List Char → List Char → Bool
  | [], _ => true
  | _ :: _, [] => false
  | a :: as, b :: bs => a == b && isPre as bs

/-- `needle` occurs as a contiguous run inside `hay`. -/
def subList (needle : List Char) : List Char → Bool
  | [] => needle.isEmpty
  | c :: rest => isPre needle (c :: rest) || subList needle rest

/-- `needle in hay` for Python strings (substring test). -/
def strContains (hay needle : String) : Bool :=
  subList needle.toList hay.toList

/-- `s.startswith(pre)`. -/
def pyStartsWith (s pre : String) : Bool :=
  isPre pre.toList s.toList

/-- `s.endswith(suf)`. -/
def pyEndsWith (s suf : String) : Bool :=
  isPre suf.toList.reverse s.toList.reverse

/-- Split a character list at a separator, keeping empty fields
(Python `str.split` with an explicit separator). -/
def splitCharsAux (sep : Char) : List Char → List Char → List String
  | [], acc => [String.mk acc.reverse]
  | c :: rest, acc =>
    if c == sep then String.mk acc.reverse :: splitCharsAux sep rest []
    else splitCharsAux sep rest (c :: acc)

/-- `s.split("/")`. -/
def splitOnSlash (s : String) : List String :=
  splitCharsAux '/' s.toList []

/-- ASCII lowercasing (`str.lower`; non-ASCII case mapping is not
modelled). -/
def pyToLowerChar (c : Char) : Char :=
  if 'A' ≤ c && c ≤ 'Z' then Char.ofNat (c.toNat + 32) else c

/-- `s.lower()`. -/
def pyToLower (s : String) : String :=
  String.mk (s.toList.map pyToLowerChar)

/-! ### JSON (`json.loads` / `json.dumps`)

A recursive-descent parser over the character list, with a fuel argument
bounding the nesting depth (each nesting level of a JSON document consumes
at least one character, so `length + 1` fuel is always enough).  Escapes
beyond the common ones and exotic number forms are rejected; every claim
below is stated relative to this parser's outcome. -/

def skipWs (cs : List Char) : List Char :=
  cs.dropWhile (fun c => c == ' ' || c == '\t' || c == '\n' || c == '\r')

/-- The common JSON string escapes; others are rejected. -/
def unescapeChar (e : Char) : Option Char :=
  if e = '"' ∨ e = '\\' ∨ e = '/' then some e
  else if e = 'n' then some '\n'
  else if e = 't' then some '\t'
  else if e = 'r' then some '\r'
  else Option.none

/-- Parse a JSON string body after the opening quote; returns the content
and the remainder after the closing quote. -/
def parseJsonStr : List Char → Option (List Char × List Char)
  | [] => Option.none
  | '"' :: rest => some ([], rest)
  | '\\' :: e :: rest =>
    (unescapeChar e).bind fun c =>
      (parseJsonStr rest).map fun p => (c :: p.1, p.2)
  | c :: rest => (parseJsonStr rest).map fun p => (c :: p.1, p.2)

/-- Parse a (possibly signed) run of digits into an integer. -/
def parseDigits (cs : List Char) : Option (Nat × List Char) :=
  let digs := cs.takeWhile pyIsDigitChar
  if digs.isEmpty then Option.none
  else some (digs.foldl (fun acc c => acc * 10 + (c.toNat - '0'.toNat)) 0,
             cs.dropWhile pyIsDigitChar)

/-- Numbers: digits, optional fraction; exponents are not modelled. -/
def parseNum (cs : List Char) : Option (PyVal × List Char) :=
  (parseDigits cs).bind fun (n, rest) =>
    match rest with
    | '.' :: rest2 =>
      (parseDigits rest2).map fun (f, rest3) =>
        let den : ℚ := ((10 : ℚ) ^ (rest2.takeWhile pyIsDigitChar).length)
        (PyVal.float ((n : ℚ) + (f : ℚ) / den), rest3)
    | _ => some (PyVal.int (n : Int), rest)

/-- Negate a parsed numeric literal. -/
def negNum : PyVal → PyVal
  | .int n => .int (-n)
  | .float q => .float (-q)
  | v => v

/-- Combine an object member with the already-parsed later members:
Python's `json.loads` keeps the first occurrence's position but the last
occurrence's value for a duplicated key. -/
def addMember (k : String) (v : PyVal) (rest : List (String × PyVal)) :
    List (String × PyVal) :=
  if dictHasKey rest k then
    (k, dictGet rest k PyVal.none) :: rest.filter (fun p => p.1 != k)
  else (k, v) :: rest

mutual

/-- Parse one JSON value; `fuel` bounds recursion depth. -/
def parseVal (fuel : Nat) (cs : List Char) : Option (PyVal × List Char) :=
  match fuel with
  | 0 => Option.none
  | fuel + 1 =>
    match skipWs cs with
    | 'n' :: 'u' :: 'l' :: 'l' :: rest => some (PyVal.none, rest)
    | 't' :: 'r' :: 'u' :: 'e' :: rest => some (PyVal.bool true, rest)
    | 'f' :: 'a' :: 'l' :: 's' :: 'e' :: rest => some (PyVal.bool false, rest)
    | '"' :: rest =>
      (parseJsonStr rest).map fun p => (PyVal.str (String.mk p.1), p.2)
    | '[' :: rest =>
      (match skipWs rest with
       | ']' :: rest2 => some (PyVal.list [], rest2)
       | other => (parseElems fuel other).map fun p => (PyVal.list p.1, p.2))
    | '{' :: rest =>
      (match skipWs rest with
       | '}' :: rest2 => some (PyVal.dict [], rest2)
       | other => (parseMembers fuel other).map fun p => (PyVal.dict p.1, p.2))
    | '-' :: rest =>
      (parseNum rest).map fun p => (negNum p.1, p.2)
    | other =>
      if (other.headD ' ').isDigit then parseNum other
      else Option.none

/-- Comma-separated array elements followed by `]`. -/
def parseElems (fuel : Nat) (cs : List Char) :
    Option (List PyVal × List Char) :=
  match fuel with
  | 0 => Option.none
  | fuel + 1 =>
    (parseVal fuel cs).bind fun (v, rest) =>
      match skipWs rest with
      | ',' :: rest2 =>
        (parseElems fuel rest2).map fun p => (v :: p.1, p.2)
      | ']' :: rest2 => some ([v], rest2)
      | _ => Option.none

/-- Comma-separated object members followed by `}`; a duplicated key
overwrites the earlier one, as Python's `json.loads` does. -/
def parseMembers (fuel : Nat) (cs : List Char) :
    Option (List (String × PyVal) × List Char) :=
  match fuel with
  | 0 => Option.none
  | fuel + 1 =>
    match skipWs cs with
    | '"' :: rest =>
      (parseJsonStr rest).bind fun (k, rest2) =>
        match skipWs rest2 with
        | ':' :: rest3 =>
          (parseVal fuel rest3).bind fun (v, rest4) =>
            match skipWs rest4 with
            | ',' :: rest5 =>
              (parseMembers fuel rest5).map fun p =>
                (addMember (String.mk k) v p.1, p.2)
            | '}' :: rest5 => some ([(String.mk k, v)], rest5)
            | _ => Option.none
        | _ => Option.none
    | _ => Option.none

end

/-- `json.loads`: succeeds only when the whole input is one JSON value. -/
def jsonLoads (s : String) : Option PyVal :=
  match parseVal (s.length + 1) s.toList with
  | some (v, rest) => if (skipWs rest).isEmpty then some v else Option.none
  | Option.none => Option.none

/-- `json.loads` applied to a Python value, as `deep_mutation` does:
only strings can be parsed, any other argument raises `TypeError`. -/
def jsonLoadsVal : PyVal → Option PyVal
  | .str s => jsonLoads s
  | _ => Option.none

/-! ### Python `str()` / `repr()` rendering -/

/-- Decimal digits of the fractional part of a non-negative rational,
most significant first. -/
def fracDigits : Nat → ℚ → List Char
  | 0, _ => []
  | n + 1, f =>
    let f10 := f * 10
    let d : Int := ⌊f10⌋
    Char.ofNat ('0'.toNat + d.toNat) :: fracDigits n (f10 - d)

/-- Python `repr` of a float, approximated by a fixed-width decimal
expansion with trailing zeros stripped (exact for the terminating decimals
the fuzzer produces). -/
def floatRepr (q : ℚ) : String :=
  let sign := if q < 0 then "-" else ""
  let aq := |q|
  let ip : Int := ⌊aq⌋
  let digs := (fracDigits 17 (aq - ip)).reverse.dropWhile (· == '0') |>.reverse
  sign ++ toString ip ++ "." ++ (if digs.isEmpty then "0" else String.mk digs)

mutual

/-- Python `repr(v)`, as used for values nested in containers
(string-quote escaping is not modelled). -/
def pyRepr : PyVal → String
  | .none => "None"
  | .bool true => "True"
  | .bool false => "False"
  | .int n => toString n
  | .float q => floatRepr q
  | .str s => "'" ++ s ++ "'"
  | .list l => "[" ++ ", ".intercalate (pyReprList l) ++ "]"
  | .dict l => "\x7b" ++ ", ".intercalate (pyReprDict l) ++ "\x7d"

def pyReprList : List PyVal → List String
  | [] => []
  | v :: vs => pyRepr v :: pyReprList vs

def pyReprDict : List (String × PyVal) → List String
  | [] => []
  | (k, v) :: vs => ("'" ++ k ++ "': " ++ pyRepr v) :: pyReprDict vs

end

/-- Python `str(v)`: identical to `repr(v)` except on strings. -/
def pyStr : PyVal → String
  | .str s => s
  | v => pyRepr v

/-! ### ID harvesting (`src/feedback/id_tracking.py`)

`EXTRACT_IDS` accumulates candidates in a dict of Python `set`s and
returns `{k: list(v)}`.  A `set` holds each value once; its iteration
order is unspecified, so the final `list(v)` step is modelled by an
explicit linearization parameter `enum` ranging over permutations.  The
accumulator below stores each bucket's *contents* in first-encounter
order. -/

/-- `is_valid_id` from the harvester: at most 30 characters, no space,
only alphanumeric characters (Python's Unicode-aware `isalnum`) or `-` `_`. -/
def is_valid_id (val : String) : Bool :=
  if val.length > 30 then false
  else if val.toList.contains ' ' then false
  else val.toList.all (fun c => pyIsAlnumChar c || c == '-' || c == '_')

/-- `found.setdefault(token, set()).add(value)`: a new token bucket is
appended; adding an already-present value is a no-op. -/
def bucketAdd (found : List (String × List String)) (tok : String)
    (v : String) : List (String × List String) :=
  if found.any (fun p => p.1 == tok) then
    found.map (fun p =>
      if p.1 == tok then (p.1, if p.2.contains v then p.2 else p.2 ++ [v])
      else p)
  else found ++ [(tok, [v])]

/-- The first token (in iteration order) that the lowercased key starts
or ends with; mirrors the `for token in match_tokens: ... break` loop. -/
def firstMatchingToken (tokens : List String) (keyLower : String) :
    Option String :=
  tokens.find? (fun t => pyStartsWith keyLower t || pyEndsWith keyLower t)

mutual

/-- `recursive_extract` walking a parsed JSON tree, threading the
accumulated buckets. -/
def recExtract (tokens : List String) (found : List (String × List String)) :
    PyVal → List (String × List String)
  | .dict entries => recExtractEntries tokens found entries
  | .list items => recExtractItems tokens found items
  | _ => found

def recExtractEntries (tokens : List String)
    (found : List (String × List String)) :
    List (String × PyVal) → List (String × List String)
  | [] => found
  | (k, v) :: rest =>
    let found2 :=
      if v.pyIsStrOrInt then
        let value := pyStr v
        if is_valid_id value then
          match firstMatchingToken tokens (pyToLower k) with
          | some tok => bucketAdd found tok value
          | Option.none => found
        else found
      else
        match v with
        | .dict _ => recExtract tokens found v
        | .list _ => recExtract tokens found v
        | _ => found
    recExtractEntries tokens found2 rest

def recExtractItems (tokens : List String)
    (found : List (String × List String)) :
    List PyVal → List (String × List String)
  | [] => found
  | v :: rest => recExtractItems tokens (recExtract tokens found v) rest

end

/-- The lowercased union of the base tokens with the dynamic parameter
names.  Python holds these in a `set`; the canonical linearization below
is one admissible iteration order (the bucket-level properties proved
here do not depend on it). -/
def matchTokens (paramNames : List String) : List String :=
  ((["id", "key", "token"] ++ paramNames).map pyToLower).dedup

/-- `EXTRACT_IDS`: parse the body (malformed input yields the empty
mapping), walk the tree, then linearize each bucket set via `enum`. -/
def EXTRACT_IDS (enum : List String → List String) (json_body : String)
    (paramNames : List String) : List (String × List String) :=
  match jsonLoads json_body with
  | Option.none => []
  | some parsed =>
    (recExtract (matchTokens paramNames) [] parsed).map
      (fun p => (p.1, enum p.2))

/-! ### Requests and responses -/

/-- A request dict as built by `build_request` and consumed downstream:
`{method, url, headers, body, parameters}`.  Parameter schemas are kept
as raw Python dicts. -/
structure PyRequest where
  method : String
  url : String
  headers : List (String × String)
  body : PyVal
  parameters : List PyVal

/-- A response dict as produced by `send_sequence`:
`{status, body, headers}` with the body kept as the raw text. -/
structure PyResponse where
  status : PyVal
  body : String
  headers : List (String × String)

/-! ### Path matching and TCL scoring (`src/feedback/utils.py`, `tcl.py`) -/

/-- `match_path`: segments of the concrete and templated path (both with
outer slashes stripped) must agree pairwise, a `{…}` template segment
matching anything. -/
def match_path (concrete spec : String) : Bool :=
  let cp := splitOnSlash (stripSlashes concrete)
  let sp := splitOnSlash (stripSlashes spec)
  cp.length == sp.length &&
    (cp.zip sp).all (fun p =>
      (pyStartsWith p.2 "\x7b" && pyEndsWith p.2 "\x7d") || p.1 == p.2)

/-- The six coverage dimensions; used both for a sequence's coverage and
for the spec-info "expected" universe (whose extra
`response_expectations` key the scorer never reads). -/
structure Coverage where
  paths : Finset String
  operations : Finset (String × String)
  parameters : Finset String
  status_codes : Finset String
  response_fields : Finset String
  input_content_types : Finset (String × String × String)

/-- `match_paths_with_dependencies`: the spec paths matched by at least
one covered concrete path. -/
def match_paths_with_dependencies (concrete spec : Finset String) :
    Finset String :=
  spec.filter (fun t => ∃ c ∈ concrete, match_path c t = true)

/-- `match_operations_with_dependencies`: same with the method compared
exactly. -/
def match_operations_with_dependencies
    (actual spec : Finset (String × String)) : Finset (String × String) :=
  spec.filter (fun t => ∃ c ∈ actual, c.1 = t.1 ∧ match_path c.2 t.2 = true)

/-- One dimension's contribution: skipped when nothing is expected,
otherwise `|matched| / |expected|`. -/
def dimScore (matched total : Nat) : ℚ :=
  if total = 0 then 0 else (matched : ℚ) / (total : ℚ)

/-- `calculate_tcl_score`: sum of the six dimension scores. -/
def calculate_tcl_score (cov spec : Coverage) : ℚ :=
  dimScore (match_paths_with_dependencies cov.paths spec.paths).card
      spec.paths.card +
    dimScore (match_operations_with_dependencies cov.operations
        spec.operations).card spec.operations.card +
    dimScore (cov.parameters ∩ spec.parameters).card spec.parameters.card +
    dimScore (cov.status_codes ∩ spec.status_codes).card
      spec.status_codes.card +
    dimScore (cov.response_fields ∩ spec.response_fields).card
      spec.response_fields.card +
    dimScore (cov.input_content_types ∩ spec.input_content_types).card
      spec.input_content_types.card

/-! ### Flattening and diversity (`src/feedback/tcl.py`) -/

mutual

/-- `flatten_json`: dot-path keys for nested dicts, numeric indices for
lists, primitives stored at their parent key. -/
def flattenJson (parentKey : String) : PyVal → List (String × PyVal)
  | .dict entries => flattenEntries parentKey entries
  | .list items => flattenItems parentKey 0 items
  | v => [(parentKey, v)]

def flattenEntries (parentKey : String) :
    List (String × PyVal) → List (String × PyVal)
  | [] => []
  | (k, v) :: rest =>
    flattenJson (if parentKey == "" then k else parentKey ++ "." ++ k) v ++
      flattenEntries parentKey rest

def flattenItems (parentKey : String) (i : Nat) :
    List PyVal → List (String × PyVal)
  | [] => []
  | v :: rest =>
    flattenJson (if parentKey == "" then toString i
                 else parentKey ++ "." ++ toString i) v ++
      flattenItems parentKey (i + 1) rest

end

/-- The flattened key set of a parsed body (`set(flat.keys())`). -/
def flatFields (v : PyVal) : Finset String :=
  ((flattenJson "" v).map Prod.fst).toFinset

/-- `CALCULATE_DIVERSITY`: returns early with `(0.0, seen)` for a blank
body, a `content-type` header (exact lowercase key of a plain dict) not
containing `application/json`, or a malformed body; otherwise the number
of flattened keys not yet seen, with this response's full key set. -/
def CALCULATE_DIVERSITY (response : PyResponse)
    (seen_fields : Finset String) : ℚ × Finset String :=
  let body := response.body
  let content_type := strDictGet response.headers "content-type" ""
  if pyStrip body == "" || !strContains content_type "application/json" then
    (0, seen_fields)
  else
    match jsonLoads body with
    | Option.none => (0, seen_fields)
    | some json_body =>
      let fields := flatFields json_body
      (((fields \ seen_fields).card : ℚ), fields)

/-! ### Sequence signature (`src/utils/utils.py`) -/

/-- One segment of `normalize_path`: all-digit segments and mixed-case or
non-lowercase alphanumeric segments become `{param}`. -/
def normalizeSeg (p : String) : String :=
  if pyStrIsDigit p || (pyStrIsAlnum p && !pyStrIsLower p) then "{param}"
  else p

/-- `normalize_path` inside `sequence_signature`. -/
def normalize_path (path : String) : String :=
  "/".intercalate ((splitOnSlash (stripSlashes path)).map normalizeSeg)

/-- `sequence_signature`: `(method, normalized url)` per request. -/
def sequence_signature (sequence : List PyRequest) :
    List (String × String) :=
  sequence.map (fun r => (r.method, normalize_path r.url))

/-! ### Value mutation (`src/mutation/mutate.py`) -/

/-- `random.choice`, driven by the oracle at counter `k`. -/
def randChoice (o : Nat → Nat) (k : Nat) (l : List PyVal) : PyVal :=
  l.getD (o k % l.length) PyVal.none

/-- `random_string(length)`: letters and digits drawn from the oracle. -/
def randomString (o : Nat → Nat) (k : Nat) (length : Nat) : String :=
  let alphabet := "abcdefghijklmnopqrstuvwxyzABCDEFGHIJKLMNOPQRSTUVWXYZ0123456789".toList
  String.mk ((List.range length).map (fun i => alphabet.getD (o (k + 1 + i) % 62) 'a'))

/-- `mutate_value`: dispatch follows the source's `isinstance` order, in
which `isinstance(value, int)` is checked first and is true for Python
bools — so a bool takes the integer branch (`True ≡ 1`, `False ≡ 0`) and
the later `isinstance(value, bool)` branch is unreachable. -/
def mutate_value (o : Nat → Nat) (k : Nat) : PyVal → PyVal
  | .int n =>
    randChoice o k [.int 0, .int (-1), .int (n + 1), .int (n - 1), .int 999999]
  | .bool b =>
    let n : Int := if b then 1 else 0
    randChoice o k [.int 0, .int (-1), .int (n + 1), .int (n - 1), .int 999999]
  | .float q =>
    randChoice o k [.float 0, .float (-11 / 10), .float (q * 2),
      .float (9999999 / 100)]
  | .str s =>
    randChoice o k [.str "", .str (s ++ "_mutated"),
      .str (s ++ "\n" ++ s ++ "\n" ++ s), .str (randomString o k 50)]
  | .list l => .list (l ++ l)
  | v => v

/-! ### Serialization (`json.dumps`, default separators) -/

mutual

/-- `json.dumps` (string-escape rendering not modelled; the bodies the
fuzzer serializes contain no characters needing escapes). -/
def jsonDumps : PyVal → String
  | .none => "null"
  | .bool true => "true"
  | .bool false => "false"
  | .int n => toString n
  | .float q => floatRepr q
  | .str s => "\"" ++ s ++ "\""
  | .list l => "[" ++ ", ".intercalate (jsonDumpsList l) ++ "]"
  | .dict l => "\x7b" ++ ", ".intercalate (jsonDumpsDict l) ++ "\x7d"

def jsonDumpsList : List PyVal → List String
  | [] => []
  | v :: vs => jsonDumps v :: jsonDumpsList vs

def jsonDumpsDict : List (String × PyVal) → List String
  | [] => []
  | (k, v) :: vs => ("\"" ++ k ++ "\": " ++ jsonDumps v) :: jsonDumpsDict vs

end

/-! ### Endpoints (`src/parser/swagger.py`) -/

/-- The fields of a parsed `Endpoint` that the mutation and selection
code reads.  The parser stores `request_body` either as `None` or as the
dict `{"properties": …, "required": …}` (see `_extract_request_body_v3`
and `_extract_request_body_v2`). -/
structure Endpoint where
  path : String
  method : String
  parameters : List PyVal
  request_body : Option PyVal

/-- `.get(key, default)` on a value that is expected to be a dict
(every call site below guards the value with a truthiness test first). -/
def pyDictGet (v : PyVal) (k : String) (dflt : PyVal) : PyVal :=
  match v with
  | .dict d => dictGet d k dflt
  | _ => dflt

/-- `key in v` for a dict-shaped value. -/
def pyDictHasKey (v : PyVal) (k : String) : Bool :=
  match v with
  | .dict d => dictHasKey d k
  | _ => false

/-- Equality of a Python value with a string literal (`v == "object"`). -/
def isStrEq (v : PyVal) (s : String) : Bool :=
  match v with
  | .str t => t == s
  | _ => false

/-- `match_path_with_placeholders` (duplicated in
`generator/selection.py` and `mutation/utils.py`): template segments of
the form `{…}` match anything, others must be equal. -/
def match_path_with_placeholders (template actual : String) : Bool :=
  let tp := splitOnSlash (stripSlashes template)
  let ap := splitOnSlash (stripSlashes actual)
  tp.length == ap.length &&
    (tp.zip ap).all (fun p =>
      (pyStartsWith p.1 "\x7b" && pyEndsWith p.1 "\x7d") || p.1 == p.2)

/-- `find_endpoint_by_request`: first endpoint with the same method whose
templated path matches the request url. -/
def find_endpoint_by_request (request : PyRequest)
    (all_endpoints : List Endpoint) : Option Endpoint :=
  all_endpoints.find? (fun ep =>
    ep.method == request.method &&
      match_path_with_placeholders ep.path request.url)

/-! ### Deep mutation (`src/mutation/mutate.py`) -/

/-- IEEE infinities are not representable as rationals; the `float("inf")`
entries of `generate_fuzz_value`'s number branch are modelled by this
sentinel (no claim exercises that branch). -/
def infSentinel : ℚ := 10 ^ 400

/-- `generate_fuzz_value`: a boundary/invalid value per schema type. -/
def generate_fuzz_value (o : Nat → Nat) (k : Nat) (schema : PyVal) : PyVal :=
  let typ := pyDictGet schema "type" PyVal.none
  if isStrEq typ "string" then
    randChoice o k [.str "", .str (String.mk (List.replicate 1000 'a')),
      .str "ðŸ’¥ðŸ’¥ðŸ’¥", .str "\x00", .str "null", .str "1234"]
  else if isStrEq typ "integer" then
    randChoice o k [.int (-1), .int 0, .int 1, .int (2 ^ 31 - 1),
      .int (-(2 ^ 31))]
  else if isStrEq typ "number" then
    randChoice o k [.float (-1), .float 0, .float (314159 / 100000),
      .float infSentinel, .float (-infSentinel)]
  else if isStrEq typ "boolean" then
    randChoice o k [.bool true, .bool false]
  else if isStrEq typ "array" then .list []
  else if isStrEq typ "object" then .dict []
  else .str "fuzz"

/-- The optional-field loop of `deep_mutation`: walk the schema's
properties in order, adding a fuzz value for each field neither present
in the body nor listed as required.  (In Python a non-dict parsed body
would raise here; that path is unreachable for this repository's
endpoints because the preceding schema guard already fails.) -/
def addOptionalFuzzFields (o : Nat → Nat) (k : Nat)
    (properties : List (String × PyVal)) (required : List PyVal)
    (body : PyVal) : PyVal :=
  match body with
  | .dict entries =>
    .dict (properties.foldl
      (fun acc p =>
        if !dictHasKey acc p.1 && !required.any (fun r => isStrEq r p.1) then
          acc ++ [(p.1, generate_fuzz_value o (k + acc.length) p.2)]
        else acc)
      entries)
  | v => v

/-- `deep_mutation`: per request, look up the endpoint; if it has a
truthy `request_body`, parse the body string, extract an object schema
from `request_body["content"]["application/json"]["schema"]`, add the
missing optional properties and re-serialize; any failing step leaves the
request unchanged. -/
def deep_mutation (o : Nat → Nat) (sequence : List PyRequest)
    (endpoints : List Endpoint) : List PyRequest :=
  sequence.map (fun req =>
    match find_endpoint_by_request req endpoints with
    | Option.none => req
    | some ep =>
      match ep.request_body with
      | Option.none => req
      | some rb =>
        if !rb.truthy then req
        else
          match jsonLoadsVal req.body with
          | Option.none => req
          | some original_body =>
            let schema :=
              pyDictGet (pyDictGet (pyDictGet rb "content" (.dict []))
                "application/json" (.dict [])) "schema" (.dict [])
            if !schema.truthy ||
                !isStrEq (pyDictGet schema "type" PyVal.none) "object" then
              req
            else
              let properties :=
                match pyDictGet schema "properties" (.dict []) with
                | .dict d => d
                | _ => []
              let required :=
                match pyDictGet schema "required" (.list []) with
                | .list l => l
                | _ => []
              { req with
                body := .str (jsonDumps
                  (addOptionalFuzzFields o 0 properties required
                    original_body)) })

/-! ### Matching keys in the dynamic-ID table (`src/generator/utils.py`) -/

/-- `get_matching_key`: the first table key (insertion order) related to
the placeholder name by a case-insensitive prefix or suffix relationship
in either direction. -/
def get_matching_key (param_name : String)
    (dynamic_id_table : List (String × List String)) : Option String :=
  let param := pyToLower param_name
  (dynamic_id_table.find? (fun e =>
    let k := pyToLower e.1
    pyStartsWith param k || pyEndsWith param k ||
      pyStartsWith k param || pyEndsWith k param)).map Prod.fst

/-- `has_matching_id` is `get_matching_key ≠ None`. -/
def has_matching_id (param_name : String)
    (dynamic_id_table : List (String × List String)) : Bool :=
  (get_matching_key param_name dynamic_id_table).isSome

/-! ### Example-value generation (`src/generator/request.py`)

`generate_matching_string` can raise in Python (a pattern of the shape
`d{m,n}` reaches an arity-mismatched unpacking, and `random.randint` with
an empty range raises); those paths are modelled as `Option.none`.
`generate_example_value` recurses through `items`/`properties`, so it
takes a fuel bound (any fuel at least the schema's size is enough). -/

/-- `re.fullmatch(r"^\d\{\d+,\d+\}$", pattern)`: one digit, `{`, digits,
`,`, digits, `}`. -/
def checkDigitBrace (cs : List Char) : Bool :=
  match cs with
  | d :: '{' :: rest =>
    let d1 := rest.takeWhile pyIsDigitChar
    pyIsDigitChar d && !d1.isEmpty &&
      (match rest.drop d1.length with
       | ',' :: rest2 =>
         let d2 := rest2.takeWhile pyIsDigitChar
         !d2.isEmpty && rest2.drop d2.length == ['}']
       | _ => false)
  | _ => false

/-- Digit-run value. -/
def digitsVal (cs : List Char) : Nat :=
  cs.foldl (fun acc c => acc * 10 + (c.toNat - '0'.toNat)) 0

/-- `re.match(r"^\^\\d\{(\d+),?(\d*)\}\$$", pattern)`: an anchored
`^\d{m,n}$` or `^\d{m}$` pattern; returns `(min_digits, max_digits)`. -/
def checkAnchoredDigitPattern (cs : List Char) : Option (Nat × Nat) :=
  match cs with
  | '^' :: '\\' :: 'd' :: '{' :: rest =>
    let g1 := rest.takeWhile pyIsDigitChar
    if g1.isEmpty then Option.none
    else
      let rest2 := rest.drop g1.length
      let rest3 := match rest2 with
        | ',' :: r => r
        | r => r
      let g2 := rest3.takeWhile pyIsDigitChar
      if rest3.drop g2.length == ['}', '$'] then
        some (digitsVal g1, if g2.isEmpty then digitsVal g1 else digitsVal g2)
      else Option.none
  | _ => Option.none

/-- A digit string of the given length drawn from the oracle. -/
def randomDigits (o : Nat → Nat) (k : Nat) (length : Nat) : String :=
  String.mk ((List.range length).map
    (fun i => Char.ofNat ('0'.toNat + o (k + 1 + i) % 10)))

/-- `generate_matching_string`; returns the string and the advanced
oracle counter, or `Option.none` where Python raises. -/
def generate_matching_string (o : Nat → Nat) (k : Nat) (pattern : String) :
    Option (String × Nat) :=
  if checkDigitBrace pattern.toList then Option.none
  else
    match checkAnchoredDigitPattern pattern.toList with
    | some (mn, mx) =>
      if mx < mn then Option.none
      else
        let length := mn + o k % (mx - mn + 1)
        some (randomDigits o k length, k + 1 + length)
    | Option.none =>
      if pyStartsWith pattern "^\\d" then some ("123456", k)
      else some ("example", k)

/-- Numeric view of a schema bound (`minimum` / `maximum` values). -/
def pyNumQ : PyVal → Option ℚ
  | .int n => some (n : ℚ)
  | .float q => some q
  | .bool b => some (if b then 1 else 0)
  | _ => Option.none

/-- Python `max(a, b)`: returns `b` exactly when `b > a` (non-numeric
operands would raise; schema bounds are numeric wherever this runs). -/
def pyMax2 (a b : PyVal) : PyVal :=
  match pyNumQ a, pyNumQ b with
  | some qa, some qb => if qb > qa then b else a
  | _, _ => a

/-- Python `min(a, b)`: returns `b` exactly when `b < a`. -/
def pyMin2 (a b : PyVal) : PyVal :=
  match pyNumQ a, pyNumQ b with
  | some qa, some qb => if qb < qa then b else a
  | _, _ => a

/-- Python `round(x, 2)` (round half to even at two decimals). -/
def roundTo2 (q : ℚ) : ℚ :=
  let x := q * 100
  let f : Int := ⌊x⌋
  let r := x - f
  (if r < 1 / 2 then (f : ℚ)
   else if r > 1 / 2 then (f : ℚ) + 1
   else if f % 2 = 0 then (f : ℚ) else (f : ℚ) + 1) / 100

/-- `round` applied to the value picked by the clamp, preserving the
int/float distinction Python's `min`/`max` leave behind. -/
def pyRound2 : PyVal → PyVal
  | .float q => .float (roundTo2 q)
  | .int n => .int n
  | v => v

/-- `generate_example_value`: an explicit `example` wins; otherwise a
type-directed dummy value.  Fuel bounds the recursion through `items` and
`properties`. -/
def generate_example_value (fuel : Nat) (o : Nat → Nat) (k : Nat)
    (schema_def : PyVal) : Option (PyVal × Nat) :=
  match fuel with
  | 0 => Option.none
  | fuel + 1 =>
    if pyDictHasKey schema_def "example" then
      some (pyDictGet schema_def "example" PyVal.none, k)
    else
      let schema_type := pyDictGet schema_def "type" PyVal.none
      let schema_format := pyDictGet schema_def "format" (.str "")
      let pattern := pyDictGet schema_def "pattern" PyVal.none
      if isStrEq schema_type "string" then
        if pattern.truthy then
          match pattern with
          | .str p =>
            (generate_matching_string o k p).map (fun r => (.str r.1, r.2))
          | _ => Option.none
        else if isStrEq schema_format "email" then
          some (.str "user@example.com", k)
        else if isStrEq schema_format "date" then
          some (.str "2025-01-01", k)
        else if isStrEq schema_format "date-time" then
          some (.str "2025-01-01T00:00:00Z", k)
        else some (.str "example-string", k)
      else if isStrEq schema_type "integer" then
        let minimum := pyDictGet schema_def "minimum" (.int 0)
        let maximum := pyDictGet schema_def "maximum" (.int 9999999999)
        some (pyMin2 (pyMax2 (.int 123) minimum) maximum, k)
      else if isStrEq schema_type "number" then
        let minimum := pyDictGet schema_def "minimum" (.float 0)
        let maximum := pyDictGet schema_def "maximum" (.float (999999999 / 100))
        some (pyRound2 (pyMin2 (pyMax2 (.float (12345 / 100)) minimum) maximum), k)
      else if isStrEq schema_type "boolean" then
        some (.bool true, k)
      else if isStrEq schema_type "array" then
        let items := pyDictGet schema_def "items" (.dict [])
        (generate_example_value fuel o k items).map (fun r =>
          match r.1 with
          | .none => (.list [], r.2)
          | v => (.list [v], r.2))
      else if isStrEq schema_type "object" then
        let props := match pyDictGet schema_def "properties" (.dict []) with
          | .dict d => d
          | _ => []
        (props.foldl (fun acc p =>
            acc.bind (fun st =>
              (generate_example_value fuel o st.2 p.2).map (fun r =>
                (match r.1 with
                 | .none => st.1
                 | v => st.1 ++ [(p.1, v)], r.2))))
          (some (([] : List (String × PyVal)), k))).map
          (fun st => (.dict st.1, st.2))
      else some (.str "fallback", k)

/-! ### Placeholder resolution (`RESOLVE_DEPENDENCIES`) -/

/-- The lazy capture after an opening `{`: the characters up to the first
`}`, together with the (strictly shorter) remainder after that `}`;
fails at a newline (regex `.` does not cross lines) or at end of
input. -/
def findCloseSeg : (cs : List Char) →
    Option (List Char × {l : List Char // l.length < cs.length})
  | [] => Option.none
  | c :: rest =>
    if c = '}' then some ([], ⟨rest, by simp⟩)
    else if c = '\n' then Option.none
    else
      (findCloseSeg rest).map (fun p =>
        (c :: p.1, ⟨p.2.1, by have := p.2.2; simp only [List.length_cons]; omega⟩))

/-- `re.findall(r"\{(.*?)\}", url)`: scan left to right; at a `{`,
capture lazily up to the first `}` and continue after it; a `{` with no
reachable `}` is skipped.  Structural recursion on a fuel bound (the
remaining input shrinks every step, so `length + 1` fuel always
suffices). -/
def findPlaceholdersF : Nat → List Char → List (List Char)
  | 0, _ => []
  | fuel + 1, cs =>
    match cs with
    | [] => []
    | c :: rest =>
      if c = '{' then
        match findCloseSeg rest with
        | some (seg, after) => seg :: findPlaceholdersF fuel after.1
        | Option.none => findPlaceholdersF fuel rest
      else findPlaceholdersF fuel rest

def findPlaceholders (cs : List Char) : List (List Char) :=
  findPlaceholdersF (cs.length + 1) cs

/-- Python `s.replace(pat, rep)`: replace every non-overlapping occurrence
left to right.  (Python treats an empty pattern specially; every call
below passes the nonempty pattern `"\x7b" + ph + "\x7d"`.) -/
def replaceAllPatF : Nat → List Char → List Char → List Char → List Char
  | 0, _, _, s => s
  | fuel + 1, pat, rep, s =>
    match s with
    | [] => []
    | c :: cs =>
      if pat ≠ [] ∧ isPre pat (c :: cs) = true then
        rep ++ replaceAllPatF fuel pat rep ((c :: cs).drop pat.length)
      else c :: replaceAllPatF fuel pat rep cs

def replaceAllPat (pat rep : List Char) (s : List Char) : List Char :=
  replaceAllPatF (s.length + 1) pat rep s

/-- String wrapper for `url.replace("\x7b" + ph + "\x7d", str(value))`. -/
def pyReplace (s pat rep : String) : String :=
  String.mk (replaceAllPat pat.toList rep.toList s.toList)

/-- The schema the path-parameter fallback uses: the first parameter dict
with this name and `in == "path"` supplies `p["schema"]` (v3) or its
`type`/`format`/`enum` fields (v2); otherwise the loop leaves the schema
unset and a plain string schema is generated. -/
def pathParamSchema (parameters : List PyVal) (ph : String) : Option PyVal :=
  match parameters.find? (fun p =>
    isStrEq (pyDictGet p "name" PyVal.none) ph &&
      isStrEq (pyDictGet p "in" PyVal.none) "path") with
  | some p =>
    if pyDictHasKey p "schema" then some (pyDictGet p "schema" PyVal.none)
    else if pyDictHasKey p "type" then
      some (match p with
        | .dict d => .dict (d.filter (fun e =>
            e.1 == "type" || e.1 == "format" || e.1 == "enum"))
        | _ => .dict [])
    else Option.none
  | Option.none => Option.none

/-- One iteration of the path-placeholder loop: pick a table value for a
truthy matching key with a non-empty bucket, otherwise generate from the
parameter schema (plain string schema when none); replace every
`{ph}` occurrence. -/
def resolveOnePh (fuel : Nat) (o : Nat → Nat)
    (table : List (String × List String)) (parameters : List PyVal)
    (st : String × Nat) (ph : List Char) : Option (String × Nat) :=
  let phStr := String.mk ph
  let url := st.1
  let k := st.2
  match get_matching_key phStr table with
  | some key =>
    let bucket := (table.find? (fun e => e.1 == key)).elim [] Prod.snd
    if key ≠ "" ∧ bucket ≠ [] then
      let value := bucket.getD (o k % bucket.length) ""
      some (pyReplace url ("\x7b" ++ phStr ++ "\x7d") value, k + 1)
    else
      (generate_example_value fuel o k
        ((pathParamSchema parameters phStr).getD
          (.dict [("type", .str "string")]))).map
        (fun r => (pyReplace url ("\x7b" ++ phStr ++ "\x7d") (pyStr r.1), r.2))
  | Option.none =>
    (generate_example_value fuel o k
      ((pathParamSchema parameters phStr).getD
        (.dict [("type", .str "string")]))).map
      (fun r => (pyReplace url ("\x7b" ++ phStr ++ "\x7d") (pyStr r.1), r.2))

/-- One header entry: a value of the exact shape `{…}` is replaced by a
table value or by `str(generate_example_value({"type": "string"}))`. -/
def resolveOneHeader (fuel : Nat) (o : Nat → Nat)
    (table : List (String × List String))
    (st : List (String × String) × Nat) (h : String × String) :
    Option (List (String × String) × Nat) :=
  let (key, val) := h
  if pyStartsWith val "\x7b" && pyEndsWith val "\x7d" then
    let ph := stripBraces val
    match get_matching_key ph table with
    | some mk0 =>
      let bucket := (table.find? (fun e => e.1 == mk0)).elim [] Prod.snd
      if mk0 ≠ "" ∧ bucket ≠ [] then
        some (st.1 ++ [(key, bucket.getD (o st.2 % bucket.length) "")], st.2 + 1)
      else
        (generate_example_value fuel o st.2
          (.dict [("type", .str "string")])).map
          (fun r => (st.1 ++ [(key, pyStr r.1)], r.2))
    | Option.none =>
      (generate_example_value fuel o st.2
        (.dict [("type", .str "string")])).map
        (fun r => (st.1 ++ [(key, pyStr r.1)], r.2))
  else some (st.1 ++ [(key, val)], st.2)

/-- `RESOLVE_DEPENDENCIES`: shallow-copy the request, substitute every
`{name}` url placeholder and every `"{name}"` header value, and return
the copy with the new url and a fresh headers dict.  `Option.none` marks
the inputs on which Python would raise inside
`generate_matching_string`. -/
def RESOLVE_DEPENDENCIES (fuel : Nat) (o : Nat → Nat) (request : PyRequest)
    (dynamic_id_table : List (String × List String)) (k : Nat) :
    Option (PyRequest × Nat) :=
  let placeholders := findPlaceholders request.url.toList
  (placeholders.foldl
      (fun acc ph => acc.bind (fun st =>
        resolveOnePh fuel o dynamic_id_table request.parameters st ph))
      (some (request.url, k))).bind
    (fun urlSt =>
      (request.headers.foldl
          (fun acc h => acc.bind (fun st =>
            resolveOneHeader fuel o dynamic_id_table st h))
          (some ([], urlSt.2))).map
        (fun hdrSt =>
          ({ request with url := urlSt.1, headers := hdrSt.1 }, hdrSt.2)))

/-! ### Test selection (`src/generator/selection.py`) -/

/-- A corpus entry `{sequence, responses, tcl, diversity}`. -/
structure CorpusEntry where
  sequence : List PyRequest
  responses : List PyResponse
  tcl : ℚ
  diversity : ℚ

instance : Inhabited CorpusEntry := ⟨⟨[], [], 0, 0⟩⟩

def MAX_SEQUENCE_LENGTH : Nat := 8

def LENGTH_WEIGHT : ℚ := 3 / 10

/-- `random.choices(..., weights, k=1)`: draw `q`, return the first index
whose cumulative weight exceeds it (the last index when `q` is at least
the total). -/
def weightedPickAux : List ℚ → ℚ → Nat
  | [], _ => 0
  | [_], _ => 0
  | w :: ws, q => if q < w then 0 else 1 + weightedPickAux ws (q - w)

/-- `SELECT_TEST` (ε-greedy).  Randomness is the coin for the ε branch,
the uniform index for exploration, and the weighted draw for
exploitation; errors model the two `ValueError`s. -/
def SELECT_TEST (coin : ℚ) (idx : Nat) (draw : ℚ)
    (corpus : List CorpusEntry) : Except String CorpusEntry :=
  if corpus.isEmpty then Except.error "Corpus is empty"
  else
    let viable_tests := corpus.filter
      (fun entry => entry.sequence.length < MAX_SEQUENCE_LENGTH)
    if viable_tests.isEmpty then
      Except.error "No viable tests under the max sequence length."
    else if coin < 1 / 5 then
      Except.ok (viable_tests.getD (idx % viable_tests.length) default)
    else
      let scores := viable_tests.map (fun entry =>
        max (entry.tcl * 1 + entry.diversity * 1 -
          LENGTH_WEIGHT * entry.sequence.length) (1 / 100))
      let total_score := scores.sum
      let probabilities := scores.map (· / total_score)
      Except.ok (viable_tests.getD (weightedPickAux probabilities draw) default)

/-! ### Per-sequence coverage (`extract_seq_coverage`) -/

/-- `req["url"].split("?")[0]`: the prefix before the first `?`. -/
def urlNoQuery (r : PyRequest) : String :=
  String.mk (r.url.toList.takeWhile (fun c => c != '?'))

/-- `extract_seq_coverage` over a request and response list. -/
def extract_seq_coverage (requests : List PyRequest)
    (responses : List PyResponse) : Coverage :=
  { paths := (requests.map urlNoQuery).toFinset
    operations := (requests.map (fun r => (r.method, urlNoQuery r))).toFinset
    parameters := (requests.foldl (fun acc r =>
      acc ++ (if !r.headers.isEmpty then r.headers.map Prod.fst else []) ++
        (match r.body with
         | .dict d => if d.isEmpty then [] else d.map Prod.fst
         | _ => [])) []).toFinset
    status_codes := (responses.map (fun r => pyStr r.status)).toFinset
    response_fields := (responses.foldl (fun acc r =>
      acc ++ (match jsonLoads r.body with
              | some (.dict d) => d.map Prod.fst
              | _ => [])) []).toFinset
    input_content_types := (requests.foldl (fun acc r =>
      acc ++ (if r.body.truthy then
                (let ct := strDictGet r.headers "Content-Type" ""
                 if ct ≠ "" then [(r.method, urlNoQuery r, ct)] else [])
              else [])) []).toFinset }

/-- Fieldwise union, as the `cumulative_coverage[k].update(...)` loop. -/
def covUnion (a b : Coverage) : Coverage :=
  { paths := a.paths ∪ b.paths
    operations := a.operations ∪ b.operations
    parameters := a.parameters ∪ b.parameters
    status_codes := a.status_codes ∪ b.status_codes
    response_fields := a.response_fields ∪ b.response_fields
    input_content_types := a.input_content_types ∪ b.input_content_types }

/-! ### The fuzzing-loop iteration tail (`src/test_fuzz.py`, lines
196–268)

The engine state after spec parsing.  The stagnation counter is a float
accumulated in `+0.2` steps; it is modelled exactly as a rational.  The
external sender is a parameter: the responses the target would return for
the sent sequence. -/

structure FuzzState where
  mutation_mode : Bool
  stagnation_counter : ℚ
  seen_signatures : List (List (String × String))
  last_total_score : ℚ
  cumulative_coverage : Coverage
  seen_fields : Finset String
  dynamic_id_table : List (String × List String)
  corpus : List CorpusEntry

def STAGNATION_WINDOW : ℚ := 25

instance : Inhabited PyResponse := ⟨⟨PyVal.none, "", []⟩⟩

/-- The dynamic-ID-table update loop: `setdefault(k, [])`, then append
each value not already present. -/
def updateIdTable (table : List (String × List String))
    (new_ids : List (String × List String)) : List (String × List String) :=
  new_ids.foldl (fun t p =>
    let t1 := if t.any (fun e => e.1 == p.1) then t else t ++ [(p.1, [])]
    p.2.foldl (fun t2 val => bucketAdd t2 p.1 val) t1) table

/-- Everything after the send: log and bug analysis are external; the
cumulative coverage, seen fields, TCL, diversity, ID table and corpus are
updated and the sequence is recorded.  Returns the new state and `true`
(the sequence was sent). -/
def sendAndRecord (spec_info : Coverage) (param_names : List String)
    (enum : List String → List String) (st : FuzzState)
    (extended_sequence : List PyRequest) (responses : List PyResponse) :
    FuzzState × Bool :=
  let seq_coverage := extract_seq_coverage extended_sequence responses
  let cumulative := covUnion st.cumulative_coverage seq_coverage
  let last_response := responses.getLastD default
  let dv := CALCULATE_DIVERSITY last_response st.seen_fields
  let seen := st.seen_fields ∪ dv.2
  let tcl_score := calculate_tcl_score seq_coverage spec_info
  let new_ids := EXTRACT_IDS enum last_response.body param_names
  let table := updateIdTable st.dynamic_id_table new_ids
  ({ st with
      cumulative_coverage := cumulative
      seen_fields := seen
      dynamic_id_table := table
      corpus := st.corpus ++
        [⟨extended_sequence, responses, tcl_score, dv.1⟩] }, true)

/-- The iteration tail from the signature computation onward: in
exploration mode the stagnation bookkeeping runs first and only a
triggered mutation-mode transition `continue`s past the send; in every
other case — a duplicate signature included — the sequence is sent and
recorded. -/
def iterationTail (spec_info : Coverage) (param_names : List String)
    (enum : List String → List String) (st : FuzzState)
    (extended_sequence : List PyRequest) (responses : List PyResponse) :
    FuzzState × Bool :=
  let sig := sequence_signature extended_sequence
  let new_signature := !st.seen_signatures.contains sig
  if !st.mutation_mode then
    let current_total_score :=
      calculate_tcl_score st.cumulative_coverage spec_info
    let stag :=
      if !new_signature then st.stagnation_counter + 1
      else if current_total_score ≤ st.last_total_score then
        st.stagnation_counter + 1 / 5
      else 0
    let seen :=
      if !new_signature then st.seen_signatures
      else st.seen_signatures ++ [sig]
    let st1 := { st with
      stagnation_counter := stag
      seen_signatures := seen
      last_total_score := current_total_score }
    if stag ≥ STAGNATION_WINDOW then
      ({ st1 with mutation_mode := true }, false)
    else
      sendAndRecord spec_info param_names enum st1 extended_sequence responses
  else
    sendAndRecord spec_info param_names enum st extended_sequence responses

/-! ### A heap view of `RESOLVE_DEPENDENCIES` (frame effect)

Python dicts are mutable objects; to state that `RESOLVE_DEPENDENCIES`
does not mutate its input, the function is re-traced over an explicit
heap of objects.  A request object is a dict whose `method`/`url` entries
are immutable primitives and whose `headers`/`body`/`parameters` entries
are references to further heap objects.  The source performs exactly
three heap effects: allocate `resolved = request.copy()`, assign
`resolved["url"]`, build the fresh dict `new_headers` and assign
`resolved["headers"]`. -/

/-- A slot of a heap dict: an immutable primitive or an object
reference. -/
inductive HVal where
  | prim (v : PyVal)
  | ref (oid : Nat)

/-- A heap object: a dict, or an object the function never opens
(request bodies, parameter lists), kept abstract with its pure value. -/
inductive HObj where
  | dicto (entries : List (String × HVal))
  | opaq (v : PyVal)

/-- Heap: association list from object id to object. -/
def lookupObj (heap : List (Nat × HObj)) (oid : Nat) : Option HObj :=
  (heap.find? (fun p => p.1 == oid)).map Prod.snd

/-- `d[k] = v` on the object `oid` (other objects untouched). -/
def hdictSet (d : List (String × HVal)) (k : String) (v : HVal) :
    List (String × HVal) :=
  if d.any (fun p => p.1 == k) then
    d.map (fun p => if p.1 == k then (k, v) else p)
  else d ++ [(k, v)]

/-- Assign one field of one heap object. -/
def writeField (heap : List (Nat × HObj)) (oid : Nat) (k : String)
    (v : HVal) : List (Nat × HObj) :=
  heap.map (fun p =>
    if p.1 == oid then
      (p.1, match p.2 with
            | .dicto es => .dicto (hdictSet es k v)
            | o => o)
    else p)

/-- Field lookup inside a dict object's entries. -/
def hfind (es : List (String × HVal)) (k : String) : Option HVal :=
  (es.find? (fun p => p.1 == k)).map Prod.snd

/-- The string-valued entries of a headers dict object. -/
def asStrEntries : List (String × HVal) → Option (List (String × String))
  | [] => some []
  | (k, .prim (.str s)) :: rest => (asStrEntries rest).map ((k, s) :: ·)
  | _ => Option.none

/-- The data `RESOLVE_DEPENDENCIES` reads out of the request object: its
entry list, url, the headers reference and its entries, and the parameter
schemas. -/
structure ReqView where
  entries : List (String × HVal)
  url : String
  hid : Nat
  headerEntries : List (String × String)
  params : List PyVal

/-- Project the request object at `reqId` (fails on a malformed heap). -/
def viewRequest (heap : List (Nat × HObj)) (reqId : Nat) : Option ReqView :=
  match lookupObj heap reqId with
  | some (.dicto es) =>
    match hfind es "url", hfind es "headers", hfind es "parameters" with
    | some (.prim (.str u)), some (.ref hid), some (.ref pid) =>
      (match lookupObj heap hid with
       | some (.dicto hes) => asStrEntries hes
       | _ => Option.none).bind (fun headerEntries =>
        match lookupObj heap pid with
        | some (.opaq (.list params)) =>
          some ⟨es, u, hid, headerEntries, params⟩
        | _ => Option.none)
    | _, _, _ => Option.none
  | _ => Option.none

/-- `RESOLVE_DEPENDENCIES` re-traced over the heap: shallow-copy the
request dict into a fresh object, run the pure url and header pipelines,
assign the copy's `url`, allocate the fresh `new_headers` dict, assign
the copy's `headers`, and return the copy's id.  Returns
`(heap, returned id, next free id, oracle counter)`. -/
def RESOLVE_DEPENDENCIES_heap (fuel : Nat) (o : Nat → Nat)
    (heap : List (Nat × HObj)) (next : Nat) (reqId : Nat)
    (dynamic_id_table : List (String × List String)) (k : Nat) :
    Option (List (Nat × HObj) × Nat × Nat × Nat) :=
  (viewRequest heap reqId).bind (fun rv =>
    let resolvedId := next
    let heap1 := heap ++ [(resolvedId, HObj.dicto rv.entries)]
    let placeholders := findPlaceholders rv.url.toList
    (placeholders.foldl
        (fun acc ph => acc.bind (fun st =>
          resolveOnePh fuel o dynamic_id_table rv.params st ph))
        (some (rv.url, k))).bind (fun urlSt =>
      let heap2 := writeField heap1 resolvedId "url"
        (HVal.prim (.str urlSt.1))
      (rv.headerEntries.foldl
          (fun acc h => acc.bind (fun st =>
            resolveOneHeader fuel o dynamic_id_table st h))
          (some ([], urlSt.2))).map (fun hdrSt =>
        let newHid := next + 1
        let heap3 := heap2 ++
          [(newHid, HObj.dicto (hdrSt.1.map
            (fun p => (p.1, HVal.prim (.str p.2)))))]
        let heap4 := writeField heap3 resolvedId "headers" (HVal.ref newHid)
        (heap4, resolvedId, next + 2, hdrSt.2))))

/-! ### Urls as literal/placeholder chunks

For reasoning about the placeholder substitution, a url is viewed as a
concatenation of brace-free literal chunks and `{name}` placeholder
chunks.  Well-formed spec paths (`/pets/{petId}` …) are of this shape. -/

/-- One url chunk. -/
inductive Chunk where
  | lit (s : List Char)
  | ph (name : List Char)

/-- Render chunks back into the flat character list. -/
def renderChunks : List Chunk → List Char
  | [] => []
  | .lit s :: r => s ++ renderChunks r
  | .ph n :: r => '{' :: (n ++ ('}' :: renderChunks r))

/-- No brace character occurs. -/
def braceFreeB (s : List Char) : Bool :=
  s.all (fun c => c != '{' && c != '}')

/-- A usable placeholder name: brace-free and newline-free (the regex
`.` does not cross newlines). -/
def phNameOk (n : List Char) : Bool :=
  braceFreeB n && n.all (fun c => c != '\n')

/-- Well-formed chunk list: brace-free literals, usable names. -/
def chunksWF : List Chunk → Bool
  | [] => true
  | .lit s :: r => braceFreeB s && chunksWF r
  | .ph n :: r => phNameOk n && chunksWF r

/-- The placeholder names, in order (with duplicates). -/
def phNames : List Chunk → List (List Char)
  | [] => []
  | .lit _ :: r => phNames r
  | .ph n :: r => n :: phNames r

/-- Replace every placeholder chunk named `n` by the literal `v`. -/
def substChunk (n v : List Char) : List Chunk → List Chunk
  | [] => []
  | .lit s :: r => .lit s :: substChunk n v r
  | .ph m :: r => (if m = n then .lit v else .ph m) :: substChunk n v r

/-- All placeholder chunks are gone. -/
def noPh : List Chunk → Bool
  | [] => true
  | .lit _ :: r => noPh r
  | .ph _ :: r => false

/-- The plain string schema used for fallbacks. -/
def strSchema : PyVal := .dict [("type", .str "string")]

/-- The schema used for a given url placeholder's fallback value. -/
def fallbackSchema (parameters : List PyVal) (ph : List Char) : PyVal :=
  (pathParamSchema parameters (String.mk ph)).getD strSchema

/-! ### Concrete fixtures used by the claim theorems -/

/-- A coverage record with nothing expected or covered. -/
def emptyCov : Coverage := ⟨∅, ∅, ∅, ∅, ∅, ∅⟩

/-- A coverage record with one element in each of the six dimensions. -/
def fullCov : Coverage :=
  ⟨{"/pets"}, {("GET", "/pets")}, {"Content-Type"}, {"200"}, {"name"},
    {("GET", "/pets", "application/json")}⟩

/-- A seed request on `GET /pets`. -/
def reqPetsGet : PyRequest :=
  ⟨"GET", "/pets", [("Content-Type", "application/json")], PyVal.none, []⟩

/-- A POST request whose body is the serialized empty object. -/
def reqPetsPost : PyRequest :=
  ⟨"POST", "/pets", [("Content-Type", "application/json")],
    PyVal.str "\x7b\x7d", []⟩

/-- `POST /pets` as the parser stores it: `request_body` is the dict
`{"properties": {"name": {"type": "string"}}, "required": []}` (the
normalized form of `_extract_request_body_v3`), which offers the optional
property `name`. -/
def epPets : Endpoint :=
  ⟨"/pets", "POST", [],
    some (.dict [("properties", .dict [("name", .dict [("type", .str "string")])]),
                 ("required", .list [])])⟩

/-- A fuzzer state in exploration mode with the signature of
`[reqPetsGet]` already seen and no stagnation. -/
def stDup : FuzzState :=
  { mutation_mode := false
    stagnation_counter := 0
    seen_signatures := [sequence_signature [reqPetsGet]]
    last_total_score := 0
    cumulative_coverage := emptyCov
    seen_fields := ∅
    dynamic_id_table := []
    corpus := [] }

/-- A JSON 200 response. -/
def respOk : PyResponse :=
  ⟨.int 200, "\x7b\"id\": \"7\"\x7d", [("Content-Type", "application/json")]⟩

/-- A request carrying an unresolved path placeholder and a placeholder
header. -/
def reqPlaceholder : PyRequest :=
  ⟨"GET", "/a/{id}", [("X-Auth", "{id}")], PyVal.none, []⟩

/-- The constant-zero random oracle. -/
def zeroOracle : Nat → Nat := fun _ => 0

/-- The result of resolving `reqPlaceholder` against the table
`{"id": ["7"]}` under `zeroOracle`: url `/a/7`, header value `7`,
two oracle draws consumed. -/
def resolvedFix : PyRequest × Nat :=
  (⟨"GET", "/a/7", [("X-Auth", "7")], PyVal.none, []⟩, 2)

/-- A one-entry corpus. -/
def corpusFix : List CorpusEntry := [⟨[reqPetsGet], [respOk], 1, 0⟩]

/-- A heap holding one request object (id 0) with headers (id 1), body
(id 2) and parameters (id 3). -/
def heapFix : List (Nat × HObj) :=
  [(0, HObj.dicto
      [("method", HVal.prim (.str "GET")),
       ("url", HVal.prim (.str "/a/{id}")),
       ("headers", HVal.ref 1),
       ("body", HVal.ref 2),
       ("parameters", HVal.ref 3)]),
   (1, HObj.dicto [("Content-Type", HVal.prim (.str "application/json"))]),
   (2, HObj.opaq PyVal.none),
   (3, HObj.opaq (.list []))]

/-- The heap after resolving `heapFix`'s request against
`{"id": ["7"]}`: the four original objects unchanged, plus the resolved
request (id 4) and its fresh headers dict (id 5). -/
def heapFixOut : List (Nat × HObj) :=
  [(0, HObj.dicto
      [("method", HVal.prim (.str "GET")),
       ("url", HVal.prim (.str "/a/{id}")),
       ("headers", HVal.ref 1),
       ("body", HVal.ref 2),
       ("parameters", HVal.ref 3)]),
   (1, HObj.dicto [("Content-Type", HVal.prim (.str "application/json"))]),
   (2, HObj.opaq PyVal.none),
   (3, HObj.opaq (.list [])),
   (4, HObj.dicto
      [("method", HVal.prim (.str "GET")),
       ("url", HVal.prim (.str "/a/7")),
       ("headers", HVal.ref 5),
       ("body", HVal.ref 2),
       ("parameters", HVal.ref 3)]),
   (5, HObj.dicto [("Content-Type", HVal.prim (.str "application/json"))])]

/-! ## Theorems -/

theorem randChoice_mem (o : Nat → Nat) (k : Nat) (l : List PyVal)
    (h : l ≠ []) : randChoice o k l ∈ l := by
  unfold randChoice
  have hlt : o k % l.length < l.length := Nat.mod_lt _ (List.length_pos.mpr h)
  rw [List.getD_eq_getElem?_getD, List.getElem?_eq_getElem hlt]
  exact List.getElem_mem hlt

/-- C9: `mutate_value` on a boolean does **not** return its negation.
Because Python's `isinstance(value, int)` is true for bools and is tested
first, `mutate_value(True)` takes the integer branch and yields one of
`{0, -1, 2, 0, 999999}` (with `True ≡ 1`); the boolean-negation branch is
dead code.  The remaining dispatch arms (int, float, list, other) do
follow the claim. -/
theorem mutate_value_bool_takes_int_branch (o : Nat → Nat) (k : Nat) :
    mutate_value o k (.bool true) ∈
      ([.int 0, .int (-1), .int 2, .int 0, .int 999999] : List PyVal) ∧
    mutate_value o k (.bool true) ≠ .bool false := by
  have hm : mutate_value o k (.bool true) ∈
      ([.int 0, .int (-1), .int 2, .int 0, .int 999999] : List PyVal) := by
    have := randChoice_mem o k
      [.int 0, .int (-1), .int 2, .int 0, .int 999999] (by simp)
    simpa [mutate_value] using this
  refine ⟨hm, ?_⟩
  simp only [List.mem_cons, List.not_mem_nil, or_false] at hm
  rcases hm with h | h | h | h | h <;> rw [h] <;> intro hc <;> cases hc

theorem dimScore_nonneg (m t : Nat) : 0 ≤ dimScore m t := by
  unfold dimScore
  split
  · exact le_refl 0
  · positivity

theorem dimScore_le_one (m t : Nat) (h : m ≤ t) : dimScore m t ≤ 1 := by
  unfold dimScore
  split
  · exact zero_le_one
  · rename_i ht
    rw [div_le_one (by exact_mod_cast Nat.pos_of_ne_zero ht)]
    exact_mod_cast h

theorem dimScore_eq_one (m t : Nat) (h : dimScore m t = 1) :
    t ≠ 0 ∧ m = t := by
  unfold dimScore at h
  split at h
  · exact absurd h (by norm_num)
  · rename_i ht
    refine ⟨ht, ?_⟩
    have hpos : (0 : ℚ) < (t : ℚ) := by exact_mod_cast Nat.pos_of_ne_zero ht
    rw [div_eq_one_iff_eq hpos.ne'] at h
    exact_mod_cast h

/-- C6: the TCL score lies in `[0, 6]`, and it equals 6 only if each of
the six expected-dimension sets is non-empty and fully covered (every
expected path/operation matched, every other expected set a subset of the
covered one). -/
theorem tcl_score_in_range_and_six_iff_full (cov spec : Coverage) :
    0 ≤ calculate_tcl_score cov spec ∧ calculate_tcl_score cov spec ≤ 6 ∧
    (calculate_tcl_score cov spec = 6 →
      (spec.paths ≠ ∅ ∧
        match_paths_with_dependencies cov.paths spec.paths = spec.paths) ∧
      (spec.operations ≠ ∅ ∧
        match_operations_with_dependencies cov.operations spec.operations =
          spec.operations) ∧
      (spec.parameters ≠ ∅ ∧ spec.parameters ⊆ cov.parameters) ∧
      (spec.status_codes ≠ ∅ ∧ spec.status_codes ⊆ cov.status_codes) ∧
      (spec.response_fields ≠ ∅ ∧ spec.response_fields ⊆ cov.response_fields) ∧
      (spec.input_content_types ≠ ∅ ∧
        spec.input_content_types ⊆ cov.input_content_types)) := by
  have hle1 : (match_paths_with_dependencies cov.paths spec.paths).card ≤
      spec.paths.card := Finset.card_filter_le _ _
  have hle2 : (match_operations_with_dependencies cov.operations
      spec.operations).card ≤ spec.operations.card := Finset.card_filter_le _ _
  have hle3 : (cov.parameters ∩ spec.parameters).card ≤ spec.parameters.card :=
    Finset.card_le_card Finset.inter_subset_right
  have hle4 : (cov.status_codes ∩ spec.status_codes).card ≤
      spec.status_codes.card := Finset.card_le_card Finset.inter_subset_right
  have hle5 : (cov.response_fields ∩ spec.response_fields).card ≤
      spec.response_fields.card := Finset.card_le_card Finset.inter_subset_right
  have hle6 : (cov.input_content_types ∩ spec.input_content_types).card ≤
      spec.input_content_types.card :=
    Finset.card_le_card Finset.inter_subset_right
  have n1 := dimScore_nonneg (match_paths_with_dependencies cov.paths
    spec.paths).card spec.paths.card
  have n2 := dimScore_nonneg (match_operations_with_dependencies
    cov.operations spec.operations).card spec.operations.card
  have n3 := dimScore_nonneg (cov.parameters ∩ spec.parameters).card
    spec.parameters.card
  have n4 := dimScore_nonneg (cov.status_codes ∩ spec.status_codes).card
    spec.status_codes.card
  have n5 := dimScore_nonneg (cov.response_fields ∩ spec.response_fields).card
    spec.response_fields.card
  have n6 := dimScore_nonneg (cov.input_content_types ∩
    spec.input_content_types).card spec.input_content_types.card
  have u1 := dimScore_le_one _ _ hle1
  have u2 := dimScore_le_one _ _ hle2
  have u3 := dimScore_le_one _ _ hle3
  have u4 := dimScore_le_one _ _ hle4
  have u5 := dimScore_le_one _ _ hle5
  have u6 := dimScore_le_one _ _ hle6
  unfold calculate_tcl_score
  refine ⟨by linarith, by linarith, fun h6 => ?_⟩
  unfold calculate_tcl_score at h6
  have e1 := dimScore_eq_one (match_paths_with_dependencies cov.paths
    spec.paths).card spec.paths.card (by linarith)
  have e2 := dimScore_eq_one (match_operations_with_dependencies
    cov.operations spec.operations).card spec.operations.card (by linarith)
  have e3 := dimScore_eq_one (cov.parameters ∩ spec.parameters).card
    spec.parameters.card (by linarith)
  have e4 := dimScore_eq_one (cov.status_codes ∩ spec.status_codes).card
    spec.status_codes.card (by linarith)
  have e5 := dimScore_eq_one (cov.response_fields ∩ spec.response_fields).card
    spec.response_fields.card (by linarith)
  have e6 := dimScore_eq_one (cov.input_content_types ∩
    spec.input_content_types).card spec.input_content_types.card (by linarith)
  refine ⟨⟨?_, ?_⟩, ⟨?_, ?_⟩, ⟨?_, ?_⟩, ⟨?_, ?_⟩, ⟨?_, ?_⟩, ⟨?_, ?_⟩⟩
  · exact fun he => e1.1 (by rw [he]; simp)
  · exact Finset.eq_of_subset_of_card_le (Finset.filter_subset _ _)
      (le_of_eq e1.2.symm)
  · exact fun he => e2.1 (by rw [he]; simp)
  · exact Finset.eq_of_subset_of_card_le (Finset.filter_subset _ _)
      (le_of_eq e2.2.symm)
  · exact fun he => e3.1 (by rw [he]; simp)
  · exact Finset.inter_eq_right.mp (Finset.eq_of_subset_of_card_le
      Finset.inter_subset_right (le_of_eq e3.2.symm))
  · exact fun he => e4.1 (by rw [he]; simp)
  · exact Finset.inter_eq_right.mp (Finset.eq_of_subset_of_card_le
      Finset.inter_subset_right (le_of_eq e4.2.symm))
  · exact fun he => e5.1 (by rw [he]; simp)
  · exact Finset.inter_eq_right.mp (Finset.eq_of_subset_of_card_le
      Finset.inter_subset_right (le_of_eq e5.2.symm))
  · exact fun he => e6.1 (by rw [he]; simp)
  · exact Finset.inter_eq_right.mp (Finset.eq_of_subset_of_card_le
      Finset.inter_subset_right (le_of_eq e6.2.symm))

theorem weightedPickAux_lt (ws : List ℚ) (q : ℚ) (h : ws ≠ []) :
    weightedPickAux ws q < ws.length := by
  induction ws generalizing q with
  | nil => exact absurd rfl h
  | cons w ws ih =>
    cases ws with
    | nil => simp [weightedPickAux]
    | cons w2 ws2 =>
      simp only [weightedPickAux]
      split
      · simp
      · have := ih (q - w) (by simp)
        simp only [List.length_cons] at *
        omega

theorem getD_mem_of_lt {α : Type} [Inhabited α] (l : List α) (n : Nat)
    (h : n < l.length) : l.getD n default ∈ l := by
  rw [List.getD_eq_getElem?_getD, List.getElem?_eq_getElem h]
  exact List.getElem_mem h

/-- C8: `SELECT_TEST` raises exactly when the corpus is empty or no entry
is shorter than `MAX_SEQUENCE_LENGTH = 8`; in every other case — on both
the ε-exploration and the weighted-exploitation branch — it returns a
corpus entry of length strictly below 8. -/
theorem select_test_fails_iff_no_viable (coin : ℚ) (idx : Nat) (draw : ℚ)
    (corpus : List CorpusEntry) :
    ((∃ msg, SELECT_TEST coin idx draw corpus = .error msg) ↔
      (corpus = [] ∨ ∀ e ∈ corpus, MAX_SEQUENCE_LENGTH ≤ e.sequence.length)) ∧
    (∀ e, SELECT_TEST coin idx draw corpus = .ok e →
      e ∈ corpus ∧ e.sequence.length < MAX_SEQUENCE_LENGTH) := by
  unfold SELECT_TEST
  by_cases hc : corpus.isEmpty
  · rw [if_pos hc]
    refine ⟨⟨fun _ => Or.inl (List.isEmpty_iff.mp hc), fun _ => ⟨_, rfl⟩⟩, ?_⟩
    intro e he
    cases he
  · rw [if_neg hc]
    have hcne : corpus ≠ [] := fun h => hc (by simp [h])
    by_cases hv : (corpus.filter
        (fun entry => entry.sequence.length < MAX_SEQUENCE_LENGTH)).isEmpty
    · simp only [hv, if_true]
      refine ⟨⟨fun _ => Or.inr ?_, fun _ => ⟨_, rfl⟩⟩, ?_⟩
      · intro e he
        have := List.isEmpty_iff.mp hv
        rw [List.filter_eq_nil_iff] at this
        have h2 := this e he
        simp only [decide_eq_true_eq] at h2
        omega
      · intro e he
        cases he
    · simp only [hv, if_false]
      have hvne : corpus.filter
          (fun entry => entry.sequence.length < MAX_SEQUENCE_LENGTH) ≠ [] :=
        fun h => (by simp [h] at hv)
      have hlen : 0 < (corpus.filter
          (fun entry => entry.sequence.length < MAX_SEQUENCE_LENGTH)).length :=
        List.length_pos.mpr hvne
      have hmem : ∀ e, e ∈ corpus.filter
          (fun entry => entry.sequence.length < MAX_SEQUENCE_LENGTH) →
          e ∈ corpus ∧ e.sequence.length < MAX_SEQUENCE_LENGTH := by
        intro e he
        have := List.mem_filter.mp he
        exact ⟨this.1, by simpa using this.2⟩
      by_cases hcoin : coin < 1 / 5
      · rw [if_pos hcoin]
        refine ⟨⟨fun ⟨_, hmsg⟩ => (by cases hmsg), fun hor => ?_⟩, ?_⟩
        · exfalso
          rcases hor with h | h
          · exact hcne h
          · rcases List.exists_mem_of_ne_nil _ hvne with ⟨e, he⟩
            have h2 := hmem e he
            have := h e h2.1
            omega
        · intro e he
          injection he with he2
          rw [← he2]
          exact hmem _ (getD_mem_of_lt _ _ (Nat.mod_lt _ hlen))
      · rw [if_neg hcoin]
        refine ⟨⟨fun ⟨_, hmsg⟩ => (by cases hmsg), fun hor => ?_⟩, ?_⟩
        · exfalso
          rcases hor with h | h
          · exact hcne h
          · rcases List.exists_mem_of_ne_nil _ hvne with ⟨e, he⟩
            have h2 := hmem e he
            have := h e h2.1
            omega
        · intro e he
          injection he with he2
          rw [← he2]
          apply hmem _ (getD_mem_of_lt _ _ ?_)
          have hwlt := weightedPickAux_lt ((corpus.filter
              (fun entry => entry.sequence.length < MAX_SEQUENCE_LENGTH)).map
                (fun entry => max (entry.tcl * 1 + entry.diversity * 1 -
                  LENGTH_WEIGHT * entry.sequence.length) (1 / 100)) |>.map
                    (· / ((corpus.filter
              (fun entry => entry.sequence.length < MAX_SEQUENCE_LENGTH)).map
                (fun entry => max (entry.tcl * 1 + entry.diversity * 1 -
                  LENGTH_WEIGHT * entry.sequence.length) (1 / 100))).sum)) draw
            (by simpa using hvne)
          simpa using hwlt

/-- C8 witness: a one-entry corpus of length 1 yields that entry; the
empty corpus raises. -/
theorem select_test_fails_iff_no_viable_witness :
    ((⟨[reqPetsGet], [respOk], 1, 0⟩ : CorpusEntry) ∈ corpusFix ∧
      (⟨[reqPetsGet], [respOk], 1, 0⟩ : CorpusEntry).sequence.length <
        MAX_SEQUENCE_LENGTH) ∧
    (∃ msg, SELECT_TEST 0 0 0 [] = .error msg) := by
  have heq : SELECT_TEST 0 0 0 corpusFix =
      Except.ok (⟨[reqPetsGet], [respOk], 1, 0⟩ : CorpusEntry) := by
    unfold SELECT_TEST corpusFix
    norm_num [MAX_SEQUENCE_LENGTH]
  exact ⟨(select_test_fails_iff_no_viable 0 0 0 corpusFix).2 _ heq,
    (select_test_fails_iff_no_viable 0 0 0 []).1.mpr (Or.inl rfl)⟩

/-- C6 witness: at a one-element-per-dimension universe covered exactly,
the score is 6 and the theorem's conclusions instantiate concretely. -/
theorem tcl_score_in_range_and_six_iff_full_witness :
    0 ≤ calculate_tcl_score fullCov fullCov ∧
    calculate_tcl_score fullCov fullCov ≤ 6 ∧
    fullCov.paths ≠ ∅ ∧
    match_paths_with_dependencies fullCov.paths fullCov.paths =
      fullCov.paths := by
  have h6 : calculate_tcl_score fullCov fullCov = 6 := by
    have hp : match_paths_with_dependencies {"/pets"} {"/pets"} =
        ({"/pets"} : Finset String) := by
      unfold match_paths_with_dependencies
      rw [Finset.filter_singleton,
        if_pos ⟨"/pets", Finset.mem_singleton_self _, by decide⟩]
    have ho : match_operations_with_dependencies {("GET", "/pets")}
        {("GET", "/pets")} = ({("GET", "/pets")} : Finset (String × String)) := by
      unfold match_operations_with_dependencies
      rw [Finset.filter_singleton,
        if_pos ⟨("GET", "/pets"), Finset.mem_singleton_self _, rfl, by decide⟩]
    unfold calculate_tcl_score fullCov
    simp only [hp, ho, Finset.inter_self, Finset.card_singleton]
    norm_num [dimScore]
  exact ⟨(tcl_score_in_range_and_six_iff_full fullCov fullCov).1,
    (tcl_score_in_range_and_six_iff_full fullCov fullCov).2.1,
    ((tcl_score_in_range_and_six_iff_full fullCov fullCov).2.2 h6).1.1,
    ((tcl_score_in_range_and_six_iff_full fullCov fullCov).2.2 h6).1.2⟩

theorem bucketAdd_inv (found : List (String × List String)) (tok v : String)
    (hv : is_valid_id v = true)
    (h : ∀ p ∈ found, p.2.Nodup ∧ ∀ x ∈ p.2, is_valid_id x = true) :
    ∀ p ∈ bucketAdd found tok v,
      p.2.Nodup ∧ ∀ x ∈ p.2, is_valid_id x = true := by
  unfold bucketAdd
  split
  · intro p hp
    rcases List.mem_map.mp hp with ⟨q, hq, rfl⟩
    have hq2 := h q hq
    split
    · rename_i heq
      constructor
      · split
        · exact hq2.1
        · rename_i hcont
          rw [List.nodup_append]
          refine ⟨hq2.1, List.nodup_singleton v, ?_⟩
          intro a ha
          simp only [List.mem_singleton]
          intro rfl2
          subst rfl2
          exact hcont (by simpa [List.contains, List.elem_iff] using ha)
      · intro x hx
        split at hx
        · exact hq2.2 x hx
        · rcases List.mem_append.mp hx with h1 | h1
          · exact hq2.2 x h1
          · rw [List.mem_singleton.mp h1]
            exact hv
    · exact hq2
  · intro p hp
    rcases List.mem_append.mp hp with h1 | h1
    · exact h p h1
    · rw [List.mem_singleton.mp h1]
      exact ⟨List.nodup_singleton v, by
        intro x hx
        rw [List.mem_singleton.mp hx]
        exact hv⟩

mutual

theorem recExtract_inv (tokens : List String)
    (found : List (String × List String)) (v : PyVal)
    (h : ∀ p ∈ found, p.2.Nodup ∧ ∀ x ∈ p.2, is_valid_id x = true) :
    ∀ p ∈ recExtract tokens found v,
      p.2.Nodup ∧ ∀ x ∈ p.2, is_valid_id x = true := by
  rw [recExtract.eq_def]
  cases v with
  | dict entries => exact recExtractEntries_inv tokens found entries h
  | list items => exact recExtractItems_inv tokens found items h
  | none => exact h
  | bool b => exact h
  | int n => exact h
  | float q => exact h
  | str s => exact h

theorem recExtractEntries_inv (tokens : List String)
    (found : List (String × List String))
    (entries : List (String × PyVal))
    (h : ∀ p ∈ found, p.2.Nodup ∧ ∀ x ∈ p.2, is_valid_id x = true) :
    ∀ p ∈ recExtractEntries tokens found entries,
      p.2.Nodup ∧ ∀ x ∈ p.2, is_valid_id x = true := by
  match entries with
  | [] => rw [recExtractEntries.eq_def]; exact h
  | (k, v) :: rest =>
    rw [recExtractEntries.eq_def]
    apply recExtractEntries_inv tokens _ rest
    dsimp only
    by_cases h1 : v.pyIsStrOrInt = true
    · rw [if_pos h1]
      by_cases h2 : is_valid_id (pyStr v) = true
      · rw [if_pos h2]
        cases hmt : firstMatchingToken tokens (pyToLower k) with
        | some tok => exact bucketAdd_inv _ _ _ h2 h
        | none => exact h
      · rw [if_neg h2]
        exact h
    · rw [if_neg h1]
      cases v with
      | dict d => exact recExtract_inv tokens found _ h
      | list l => exact recExtract_inv tokens found _ h
      | none => exact h
      | bool b => exact h
      | int n => exact h
      | float q => exact h
      | str s => exact h

theorem recExtractItems_inv (tokens : List String)
    (found : List (String × List String)) (items : List PyVal)
    (h : ∀ p ∈ found, p.2.Nodup ∧ ∀ x ∈ p.2, is_valid_id x = true) :
    ∀ p ∈ recExtractItems tokens found items,
      p.2.Nodup ∧ ∀ x ∈ p.2, is_valid_id x = true := by
  match items with
  | [] => rw [recExtractItems]; exact h
  | v :: rest =>
    rw [recExtractItems]
    exact recExtractItems_inv tokens _ rest (recExtract_inv tokens found v h)

end

theorem extract_ids_bucket_inv (enum : List String → List String)
    (json_body : String) (paramNames : List String) :
    ∀ p ∈ EXTRACT_IDS enum json_body paramNames,
      ∃ b, p.2 = enum b ∧ b.Nodup ∧ ∀ x ∈ b, is_valid_id x = true := by
  intro p hp
  unfold EXTRACT_IDS at hp
  cases hl : jsonLoads json_body with
  | none => rw [hl] at hp; cases hp
  | some parsed =>
    rw [hl] at hp
    rcases List.mem_map.mp hp with ⟨q, hq, rfl⟩
    have hinv := recExtract_inv (matchTokens paramNames) [] parsed
      (by intro p hp0; cases hp0) q hq
    exact ⟨q.2, rfl, hinv.1, hinv.2⟩

/-- C4 (amended): `EXTRACT_IDS` returns the empty mapping on malformed
JSON, and each token bucket contains no duplicate values; the order
within a bucket is **unspecified** (the linearization of a Python `set`),
not the first-encounter order the claim states. -/
theorem extract_ids_malformed_empty_and_buckets_nodup
    (enum : List String → List String) (henum : ∀ l, (enum l).Perm l)
    (json_body : String) (paramNames : List String) :
    (jsonLoads json_body = Option.none →
      EXTRACT_IDS enum json_body paramNames = []) ∧
    ∀ p ∈ EXTRACT_IDS enum json_body paramNames, p.2.Nodup := by
  constructor
  · intro hm
    unfold EXTRACT_IDS
    rw [hm]
  · intro p hp
    rcases extract_ids_bucket_inv enum json_body paramNames p hp with
      ⟨b, hb, hnd, _⟩
    rw [hb]
    exact ((henum b).nodup_iff).mpr hnd

/-- C4 witness: a well-formed body gives deduplicated buckets and a
malformed one the empty map, at the identity linearization. -/
theorem extract_ids_malformed_empty_and_buckets_nodup_witness :
    EXTRACT_IDS id "not json" [] = [] ∧
    ∀ p ∈ EXTRACT_IDS id "\x7b\"aid\": \"1\", \"bid\": \"2\"\x7d" [], p.2.Nodup :=
  ⟨(extract_ids_malformed_empty_and_buckets_nodup id (fun l => List.Perm.refl l)
      "not json" []).1 rfl,
   (extract_ids_malformed_empty_and_buckets_nodup id (fun l => List.Perm.refl l)
      "\x7b\"aid\": \"1\", \"bid\": \"2\"\x7d" []).2⟩

/-- C4 counterexample: the buckets are Python `set`s, so `list(v)` may
enumerate them in any order; with the (admissible) reversed enumeration
the `id` bucket comes out `["2", "1"]`, not the first-encounter order
`["1", "2"]` the claim requires. -/
theorem extract_ids_bucket_order_counterexample :
    (["2", "1"] : List String).Perm ["1", "2"] ∧
    EXTRACT_IDS List.reverse "\x7b\"aid\": \"1\", \"bid\": \"2\"\x7d" [] =
      [("id", ["2", "1"])] ∧
    (["2", "1"] : List String) ≠ ["1", "2"] := by
  refine ⟨by decide, by rfl, by decide⟩

theorem is_valid_id_spec (v : String) (h : is_valid_id v = true) :
    v.length ≤ 30 ∧ ' ' ∉ v.toList ∧
    ∀ c ∈ v.toList, (pyIsAlnumChar c || c == '-' || c == '_') = true := by
  unfold is_valid_id at h
  split at h
  · cases h
  · split at h
    · cases h
    · rename_i h30 hsp
      refine ⟨by omega, ?_, ?_⟩
      · intro hmem
        exact hsp (by simpa [List.contains, List.elem_iff] using hmem)
      · intro c hc
        have := List.all_eq_true.mp h c hc
        simpa using this

/-- C5 (amended): every value in any bucket `EXTRACT_IDS` returns has at
most 30 characters, contains no space, and consists of characters that
are Python-alphanumeric (`str.isalnum`, which also admits non-ASCII
letters and digits) or `-` or `_`. -/
theorem extract_ids_values_are_valid_ids (enum : List String → List String)
    (henum : ∀ l, (enum l).Perm l) (json_body : String)
    (paramNames : List String) :
    ∀ p ∈ EXTRACT_IDS enum json_body paramNames, ∀ v ∈ p.2,
      v.length ≤ 30 ∧ ' ' ∉ v.toList ∧
      ∀ c ∈ v.toList, (pyIsAlnumChar c || c == '-' || c == '_') = true := by
  intro p hp v hv
  rcases extract_ids_bucket_inv enum json_body paramNames p hp with
    ⟨b, hb, _, hval⟩
  rw [hb] at hv
  exact is_valid_id_spec v (hval v ((henum b).mem_iff.mp hv))

/-- C5 witness: the harvested value `"42"` satisfies the validity
bounds. -/
theorem extract_ids_values_are_valid_ids_witness :
    ("42" : String).length ≤ 30 ∧ ' ' ∉ "42".toList ∧
    ∀ c ∈ "42".toList, (pyIsAlnumChar c || c == '-' || c == '_') = true := by
  have hmem : ("id", ["42"]) ∈ EXTRACT_IDS id "\x7b\"id\": \"42\"\x7d" [] := by
    rw [show EXTRACT_IDS id "\x7b\"id\": \"42\"\x7d" [] = [("id", ["42"])] from rfl]
    exact List.mem_singleton_self _
  exact extract_ids_values_are_valid_ids id (fun l => List.Perm.refl l)
    "\x7b\"id\": \"42\"\x7d" [] ("id", ["42"]) hmem "42" (List.mem_singleton_self _)

/-- C5 counterexample: Python's `str.isalnum` is Unicode-aware, so the
value `"é"` passes `is_valid_id` and is harvested, although `é` is not in
`[A-Za-z0-9_-]`. -/
theorem extract_ids_non_ascii_value_counterexample :
    EXTRACT_IDS id "\x7b\"id\": \"é\"\x7d" [] = [("id", ["é"])] ∧
    ("é".toList.all (fun c =>
      ('0' ≤ c && c ≤ '9') || ('a' ≤ c && c ≤ 'z') || ('A' ≤ c && c ≤ 'Z') ||
        c == '-' || c == '_')) = false := by
  refine ⟨by rfl, by decide⟩

/-- C3 (amended): `CALCULATE_DIVERSITY` attempts the JSON parse exactly
when the body is non-blank and the value stored under the **exact dict
key `"content-type"`** contains `application/json` (the lookup is a plain
case-sensitive dict access, not a case-insensitive header read); on a
successful parse it returns the count of flattened keys not yet seen with
the response's full key set, and in every other case `(0.0, seen)`. -/
theorem calculate_diversity_content_type_gate (response : PyResponse)
    (seen_fields : Finset String) :
    (pyStrip response.body = "" ∨
      strContains (strDictGet response.headers "content-type" "")
        "application/json" = false →
      CALCULATE_DIVERSITY response seen_fields = (0, seen_fields)) ∧
    (pyStrip response.body ≠ "" →
      strContains (strDictGet response.headers "content-type" "")
        "application/json" = true →
      (jsonLoads response.body = Option.none →
        CALCULATE_DIVERSITY response seen_fields = (0, seen_fields)) ∧
      ∀ v, jsonLoads response.body = some v →
        CALCULATE_DIVERSITY response seen_fields =
          (((flatFields v \ seen_fields).card : ℚ), flatFields v)) := by
  unfold CALCULATE_DIVERSITY
  constructor
  · intro hor
    rcases hor with h | h
    · rw [if_pos (by simp [h])]
    · rw [if_pos (by simp [h])]
  · intro hb hct
    rw [if_neg (by simp [hb, hct])]
    constructor
    · intro hm
      rw [hm]
    · intro v hv
      rw [hv]

/-- C3 witness: with the lowercase header key the body is parsed and the
one new field is counted. -/
theorem calculate_diversity_content_type_gate_witness :
    CALCULATE_DIVERSITY
      ⟨.int 200, "\x7b\"a\": 1\x7d", [("content-type", "application/json")]⟩ ∅ =
      (1, ({"a"} : Finset String)) := by
  have h := (calculate_diversity_content_type_gate
    ⟨.int 200, "\x7b\"a\": 1\x7d", [("content-type", "application/json")]⟩ ∅).2
    (by decide) (by decide)
  have h2 := h.2 (.dict [("a", .int 1)]) (by rfl)
  rw [h2]
  norm_num
  constructor
  · rfl
  · rfl

/-- C3 counterexample: the sender stores header names as received
(`Content-Type`), but the diversity gate reads the exact key
`content-type`; a response whose Content-Type header contains
`application/json` and whose body parses to one field is nevertheless
scored `(0.0, unchanged seen set)` instead of `(1, {"a"})`. -/
theorem calculate_diversity_capitalized_header_counterexample :
    CALCULATE_DIVERSITY
      ⟨.int 200, "\x7b\"a\": 1\x7d", [("Content-Type", "application/json")]⟩ ∅ =
      (0, (∅ : Finset String)) ∧
    pyStrip "\x7b\"a\": 1\x7d" ≠ "" ∧
    strContains "application/json" "application/json" = true ∧
    ((0 : ℚ), (∅ : Finset String)) ≠ ((1 : ℚ), ({"a"} : Finset String)) := by
  refine ⟨by rfl, by decide, by decide, ?_⟩
  intro h
  have := congrArg Prod.fst h
  norm_num at this

theorem iterationTail_duplicate_general (spec_info : Coverage)
    (param_names : List String) (enum : List String → List String)
    (st : FuzzState) (seq : List PyRequest) (responses : List PyResponse)
    (hmode : st.mutation_mode = false)
    (hdup : st.seen_signatures.contains (sequence_signature seq) = true)
    (hstag : ¬(st.stagnation_counter + 1 ≥ STAGNATION_WINDOW)) :
    (iterationTail spec_info param_names enum st seq responses).2 = true ∧
    (iterationTail spec_info param_names enum st seq
      responses).1.stagnation_counter = st.stagnation_counter + 1 ∧
    (iterationTail spec_info param_names enum st seq
      responses).1.corpus.length = st.corpus.length + 1 := by
  unfold iterationTail
  dsimp only
  rw [hmode, hdup]
  simp only [Bool.not_false, Bool.not_true, if_true, if_false, ite_true,
    ite_false]
  rw [if_neg hstag]
  unfold sendAndRecord
  refine ⟨rfl, rfl, ?_⟩
  simp

/-- C2: a duplicate-signature iteration in exploration mode increments
the stagnation counter by 1 but — missing `continue` — **does** send the
sequence and append it to the corpus whenever the incremented counter is
still below the stagnation window, refuting the claim's "skip send".
Evaluated at a concrete state whose seen-signature set already holds the
extended sequence's signature. -/
theorem exploration_duplicate_signature_still_sent :
    stDup.seen_signatures.contains (sequence_signature [reqPetsGet]) = true ∧
    stDup.mutation_mode = false ∧
    stDup.stagnation_counter + 1 < STAGNATION_WINDOW ∧
    (iterationTail emptyCov [] id stDup [reqPetsGet] [respOk]).2 = true ∧
    (iterationTail emptyCov [] id stDup [reqPetsGet]
      [respOk]).1.stagnation_counter = stDup.stagnation_counter + 1 ∧
    (iterationTail emptyCov [] id stDup [reqPetsGet]
      [respOk]).1.corpus.length = stDup.corpus.length + 1 := by
  have hlt : stDup.stagnation_counter + 1 < STAGNATION_WINDOW := by
    norm_num [stDup, STAGNATION_WINDOW]
  have h := iterationTail_duplicate_general emptyCov [] id stDup [reqPetsGet]
    [respOk] rfl (by rfl) (by exact not_le.mpr hlt)
  exact ⟨by rfl, rfl, hlt, h.1, h.2.1, h.2.2⟩

/-- C1: `deep_mutation` never adds missing optional properties to a
request produced against this parser's endpoints.  The parser stores
`request_body` as `{"properties", "required"}`, but `deep_mutation` looks
the schema up under `request_body["content"]["application/json"]
["schema"]`, which is always absent — so even for a request whose
endpoint is found, whose `request_body` is truthy and offers the missing
optional property `name` and whose body parses, the request is returned
unchanged instead of getting `name` fuzzed in. -/
theorem deep_mutation_adds_no_optional_fields (o : Nat → Nat) :
    deep_mutation o [reqPetsPost] [epPets] = [reqPetsPost] ∧
    find_endpoint_by_request reqPetsPost [epPets] = some epPets ∧
    (∃ rb, epPets.request_body = some rb ∧ rb.truthy = true ∧
      pyDictHasKey (pyDictGet rb "properties" (.dict [])) "name" = true ∧
      dictHasKey [] "name" = false) ∧
    jsonLoadsVal reqPetsPost.body = some (.dict []) := by
  refine ⟨by rfl, by rfl, ⟨_, rfl, by rfl, by rfl, by rfl⟩, by rfl⟩

theorem find?_map_keyfix2 {α β : Type} (f : α × β → α × β)
    (hf : ∀ p, (f p).1 = p.1) (l : List (α × β)) (pred : α → Bool) :
    (l.map f).find? (fun p => pred p.1) =
      (l.find? (fun p => pred p.1)).map f := by
  induction l with
  | nil => rfl
  | cons a rest ih =>
    simp only [List.map_cons, List.find?_cons, hf a]
    cases (pred a.1) with
    | true => rfl
    | false => exact ih

theorem lookupObj_append_not_new (heap l : List (Nat × HObj)) (i : Nat)
    (hno : ∀ p ∈ l, i ≠ p.1) :
    lookupObj (heap ++ l) i = lookupObj heap i := by
  induction heap with
  | nil =>
    simp only [List.nil_append, lookupObj]
    rw [List.find?_eq_none.mpr]
    · rfl
    · intro p hp
      simp only [beq_iff_eq]
      exact fun he => hno p hp he.symm
  | cons a rest ih =>
    simp only [List.cons_append, lookupObj, List.find?_cons] at *
    cases hai : (a.1 == i) with
    | true => rfl
    | false => exact ih

theorem lookupObj_write_ne (heap : List (Nat × HObj)) (oid : Nat) (k : String)
    (v : HVal) (i : Nat) (hne : i ≠ oid) :
    lookupObj (writeField heap oid k v) i = lookupObj heap i := by
  unfold writeField lookupObj
  rw [find?_map_keyfix2 _ (fun p => by split <;> rfl) heap (fun a => a == i)]
  cases hf : heap.find? (fun p => p.1 == i) with
  | none => rfl
  | some p =>
    have hp : p.1 = i := by
      have := List.find?_some hf
      simpa using this
    simp only [Option.map_some']
    rw [if_neg (by rw [hp]; simpa using hne)]

theorem lookupObj_write_self (heap : List (Nat × HObj)) (oid : Nat)
    (k : String) (v : HVal) :
    lookupObj (writeField heap oid k v) oid =
      (lookupObj heap oid).map (fun ob =>
        match ob with
        | HObj.dicto es => HObj.dicto (hdictSet es k v)
        | ob => ob) := by
  unfold writeField lookupObj
  rw [find?_map_keyfix2 _ (fun p => by split <;> rfl) heap (fun a => a == oid)]
  cases hf : heap.find? (fun p => p.1 == oid) with
  | none => rfl
  | some p =>
    have hp : p.1 = oid := by
      have := List.find?_some hf
      simpa using this
    simp only [Option.map_some']
    rw [if_pos (by simp [hp])]

theorem lookupObj_none_of_bound (heap : List (Nat × HObj)) (next i : Nat)
    (hb : ∀ p ∈ heap, p.1 < next) (h : next ≤ i) :
    lookupObj heap i = Option.none := by
  unfold lookupObj
  rw [List.find?_eq_none.mpr]
  · rfl
  · intro p hp
    have := hb p hp
    simp only [beq_iff_eq]
    omega

theorem lookupObj_append_new (heap : List (Nat × HObj)) (j : Nat) (ob : HObj)
    (hnone : lookupObj heap j = Option.none) :
    lookupObj (heap ++ [(j, ob)]) j = some ob := by
  induction heap with
  | nil => simp [lookupObj, List.find?_cons]
  | cons a rest ih =>
    simp only [lookupObj, List.find?_cons] at hnone ⊢
    cases haj : (a.1 == j) with
    | true => simp [haj] at hnone
    | false =>
      simp only [List.cons_append, List.find?_cons, haj]
      exact ih (by simpa [lookupObj, haj] using hnone)

theorem hdictSet_keyfix (k : String) (v : HVal) (p : String × HVal) :
    ((fun p => if p.1 == k then (k, v) else p) p).1 = p.1 := by
  show (if (p.1 == k) = true then (k, v) else p).1 = p.1
  split
  · rename_i h
    exact (by simpa using h : p.1 = k).symm
  · rfl

theorem hfind_hdictSet_self (es : List (String × HVal)) (k : String)
    (v : HVal) : hfind (hdictSet es k v) k = some v := by
  unfold hdictSet
  split
  · rename_i hany
    unfold hfind
    rw [find?_map_keyfix2 (fun p => if p.1 == k then (k, v) else p)
      (hdictSet_keyfix k v) es (fun a => a == k)]
    rcases List.any_eq_true.mp hany with ⟨p, hp, hpk⟩
    cases hf : es.find? (fun p => p.1 == k) with
    | none =>
      have hsome : (es.find? (fun p => p.1 == k)).isSome = true :=
        List.find?_isSome.mpr ⟨p, hp, hpk⟩
      rw [hf] at hsome
      cases hsome
    | some q =>
      have hq : (q.1 == k) = true := by
        have := List.find?_some hf
        simpa using this
      simp only [Option.map_some']
      rw [if_pos hq]
  · unfold hfind
    rw [List.find?_append, List.find?_eq_none.mpr, Option.none_or]
    · simp [List.find?_cons]
    · rename_i hany
      intro p hp
      simp only [Bool.not_eq_true]
      cases hpk : (p.1 == k) with
      | false => rfl
      | true => exact absurd (List.any_eq_true.mpr ⟨p, hp, hpk⟩) hany

theorem hfind_hdictSet_ne (es : List (String × HVal)) (k k' : String)
    (v : HVal) (hne : k' ≠ k) :
    hfind (hdictSet es k v) k' = hfind es k' := by
  have hkk : ((k == k') = false) := by
    rw [beq_eq_false_iff_ne]
    exact fun he => hne he.symm
  unfold hdictSet
  split
  · unfold hfind
    rw [find?_map_keyfix2 (fun p => if p.1 == k then (k, v) else p)
      (hdictSet_keyfix k v) es (fun a => a == k')]
    cases hf : es.find? (fun p => p.1 == k') with
    | none => rfl
    | some q =>
      have hq : q.1 = k' := by
        have := List.find?_some hf
        simpa using this
      simp only [Option.map_some']
      rw [if_neg (by rw [hq]; simpa using hne)]
  · unfold hfind
    rw [List.find?_append]
    cases hf : es.find? (fun p => p.1 == k') with
    | none =>
      simp only [Option.none_or, List.find?_cons]
      rw [show (((k, v) : String × HVal).1 == k') = false from hkk]
      rfl
    | some q => rfl

/-- C10: `RESOLVE_DEPENDENCIES` does not mutate its input.  Re-traced
over the heap, every pre-existing object — the input request dict, its
headers, body and parameters objects included — is unchanged after the
call, and the returned request is a freshly allocated dict whose
`headers` entry references a freshly allocated dict (Python strings are
immutable, so the new url needs no heap object). -/
theorem resolve_dependencies_frame (fuel : Nat) (o : Nat → Nat)
    (heap : List (Nat × HObj)) (next reqId : Nat)
    (table : List (String × List String)) (k : Nat)
    (hb : ∀ p ∈ heap, p.1 < next) :
    ∀ heap' rid next' k',
      RESOLVE_DEPENDENCIES_heap fuel o heap next reqId table k =
        some (heap', rid, next', k') →
      (∀ i, i < next → lookupObj heap' i = lookupObj heap i) ∧
      rid = next ∧ next' = next + 2 ∧
      lookupObj heap rid = Option.none ∧
      lookupObj heap (next + 1) = Option.none ∧
      (∃ es u, lookupObj heap' rid = some (.dicto es) ∧
        hfind es "headers" = some (.ref (next + 1)) ∧
        hfind es "url" = some (.prim (.str u))) ∧
      (∃ hes, lookupObj heap' (next + 1) = some (.dicto hes)) := by
  intro heap' rid next' k' hres
  unfold RESOLVE_DEPENDENCIES_heap at hres
  simp only [Option.bind_eq_some, Option.map_eq_some'] at hres
  rcases hres with ⟨rv, hrv, urlSt, hurl, hdrSt, hhdr, heq⟩
  simp only [Prod.mk.injEq] at heq
  rcases heq with ⟨hheap', hrid, hnext', hk'⟩
  subst hheap' hrid hnext' hk'
  have hnone0 : lookupObj heap next = Option.none :=
    lookupObj_none_of_bound heap next next hb (le_refl next)
  have hnone1 : lookupObj heap (next + 1) = Option.none :=
    lookupObj_none_of_bound heap next (next + 1) hb (by omega)
  refine ⟨?_, rfl, rfl, hnone0, hnone1, ?_, ?_⟩
  · intro i hi
    rw [lookupObj_write_ne _ _ _ _ _ (by omega)]
    rw [lookupObj_append_not_new _ _ _ (by
      intro p hp
      simp only [List.mem_singleton] at hp
      subst hp
      omega)]
    rw [lookupObj_write_ne _ _ _ _ _ (by omega)]
    rw [lookupObj_append_not_new _ _ _ (by
      intro p hp
      simp only [List.mem_singleton] at hp
      subst hp
      omega)]
  · have h1 : lookupObj (heap ++ [(next, HObj.dicto rv.entries)]) next =
        some (HObj.dicto rv.entries) := lookupObj_append_new _ _ _ hnone0
    have h3 : lookupObj (writeField (heap ++ [(next, HObj.dicto rv.entries)])
        next "url" (HVal.prim (.str urlSt.1)) ++
          [(next + 1, HObj.dicto (hdrSt.1.map
            (fun p => (p.1, HVal.prim (.str p.2)))))]) next =
        some (HObj.dicto (hdictSet rv.entries "url"
          (HVal.prim (.str urlSt.1)))) := by
      rw [lookupObj_append_not_new _ _ _ (by
        intro p hp
        simp only [List.mem_singleton] at hp
        subst hp
        omega)]
      rw [lookupObj_write_self, h1]
      rfl
    refine ⟨hdictSet (hdictSet rv.entries "url" (HVal.prim (.str urlSt.1)))
      "headers" (HVal.ref (next + 1)), urlSt.1, ?_, ?_, ?_⟩
    · rw [lookupObj_write_self, h3]
      rfl
    · exact hfind_hdictSet_self _ _ _
    · rw [hfind_hdictSet_ne _ _ _ _ (by decide)]
      exact hfind_hdictSet_self _ _ _
  · rw [lookupObj_write_ne _ _ _ _ _ (by omega)]
    refine ⟨_, lookupObj_append_new _ _ _ ?_⟩
    rw [lookupObj_write_ne _ _ _ _ _ (by omega)]
    rw [lookupObj_append_not_new _ _ _ (by
      intro p hp
      simp only [List.mem_singleton] at hp
      subst hp
      omega)]
    exact hnone1

/-- C10 witness: resolving the concrete request at heap id 0 leaves all
four original objects untouched and allocates ids 4 and 5. -/
theorem resolve_dependencies_frame_witness :
    lookupObj heapFixOut 0 = lookupObj heapFix 0 ∧
    lookupObj heapFixOut 1 = lookupObj heapFix 1 ∧
    lookupObj heapFixOut 2 = lookupObj heapFix 2 ∧
    lookupObj heapFixOut 3 = lookupObj heapFix 3 ∧
    lookupObj heapFix 4 = Option.none ∧
    lookupObj heapFix 5 = Option.none := by
  have h := resolve_dependencies_frame 5 (fun _ => 0) heapFix 4 0
    [("id", ["7"])] 0 (by
      intro p hp
      unfold heapFix at hp
      simp only [List.mem_cons, List.not_mem_nil, or_false] at hp
      rcases hp with h | h | h | h <;> rw [h] <;> norm_num)
    heapFixOut 4 6 1 (by rfl)
  exact ⟨h.1 0 (by omega), h.1 1 (by omega), h.1 2 (by omega),
    h.1 3 (by omega), h.2.2.2.1, h.2.2.2.2.1⟩

/-! ### C7: placeholder elimination in `RESOLVE_DEPENDENCIES` -/

theorem isPre_append_cancel (a y z : List Char) :
    isPre (a ++ y) (a ++ z) = isPre y z := by
  induction a with
  | nil => rfl
  | cons c rest ih => simp [isPre, ih]

theorem isPre_refl_append (a t : List Char) : isPre a (a ++ t) = true := by
  induction a with
  | nil => rfl
  | cons c rest ih => simp [isPre, ih]

theorem braceFreeB_mem (s : List Char) (h : braceFreeB s = true) :
    ∀ c ∈ s, c ≠ '{' ∧ c ≠ '}' := by
  intro c hc
  have := List.all_eq_true.mp h c hc
  constructor <;> intro he <;> subst he <;> simp at this

theorem isPre_close_mismatch (n m t : List Char) (hn : braceFreeB n = true)
    (hm : braceFreeB m = true) (hne : m ≠ n) :
    isPre (n ++ ['}']) (m ++ '}' :: t) = false := by
  induction n generalizing m with
  | nil =>
    cases m with
    | nil => exact absurd rfl hne
    | cons c m' =>
      have hc := (braceFreeB_mem _ hm c (by simp)).2
      simp only [List.nil_append, isPre]
      simp only [Bool.and_eq_false_iff, beq_eq_false_iff_ne, ne_eq]
      left
      exact fun he => hc he.symm
  | cons a n' ih =>
    cases m with
    | nil =>
      have ha := (braceFreeB_mem _ hn a (by simp)).2
      simp only [List.cons_append, List.nil_append, isPre]
      simp [ha]
    | cons c m' =>
      simp only [List.cons_append, isPre]
      by_cases hac : a = c
      · subst hac
        have hn' : braceFreeB n' = true := by
          simp only [braceFreeB, List.all_cons, Bool.and_eq_true] at hn
          exact hn.2
        have hm' : braceFreeB m' = true := by
          simp only [braceFreeB, List.all_cons, Bool.and_eq_true] at hm
          exact hm.2
        have hne' : m' ≠ n' := fun he => hne (by rw [he])
        simp [ih m' hn' hm' hne']
      · simp [show (a == c) = false from by simpa using hac]

theorem findCloseSeg_name (n t : List Char) (hn : phNameOk n = true) :
    (findCloseSeg (n ++ '}' :: t)).map (fun p => (p.1, p.2.1)) =
      some (n, t) := by
  induction n with
  | nil => rfl
  | cons c n' ih =>
    have hc : c ≠ '}' ∧ c ≠ '\n' := by
      simp only [phNameOk, braceFreeB, List.all_cons, Bool.and_eq_true] at hn
      refine ⟨?_, ?_⟩
      · intro he
        subst he
        simp at hn
      · intro he
        subst he
        simp at hn
    have hn' : phNameOk n' = true := by
      simp only [phNameOk, braceFreeB, List.all_cons, Bool.and_eq_true] at hn ⊢
      exact ⟨hn.1.2, hn.2.2⟩
    simp only [List.cons_append]
    rw [findCloseSeg]
    rw [if_neg hc.1, if_neg hc.2]
    have := ih hn'
    cases hfc : findCloseSeg (n' ++ '}' :: t) with
      | none => rw [hfc] at this; cases this
      | some p =>
        rw [hfc] at this
        simp only [Option.map_some', Option.some_inj, Prod.mk.injEq] at this
        simp only [Option.map_some', Option.some_inj, Prod.mk.injEq]
        exact ⟨by rw [this.1], this.2⟩

theorem fpF_skip_lit (s : List Char) : ∀ (fuel : Nat) (t : List Char),
    s.all (fun c => c != '{') = true → s.length + t.length < fuel →
    findPlaceholdersF fuel (s ++ t) =
      findPlaceholdersF (fuel - s.length) t := by
  induction s with
  | nil =>
    intro fuel t _ _
    simp
  | cons c s' ih =>
    intro fuel t hb hlen
    simp only [List.all_cons, Bool.and_eq_true, bne_iff_ne, ne_eq] at hb
    cases fuel with
    | zero => omega
    | succ f =>
      simp only [List.cons_append, findPlaceholdersF]
      rw [if_neg hb.1]
      rw [ih f t hb.2 (by simp only [List.length_cons] at hlen; omega)]
      congr 1
      simp only [List.length_cons]
      omega

theorem fpF_render (cs : List Chunk) : ∀ (fuel : Nat),
    chunksWF cs = true → (renderChunks cs).length < fuel →
    findPlaceholdersF fuel (renderChunks cs) = phNames cs := by
  induction cs with
  | nil =>
    intro fuel _ hlen
    cases fuel with
    | zero => omega
    | succ f => rfl
  | cons c r ih =>
    intro fuel hwf hlen
    cases c with
    | lit s =>
      simp only [chunksWF, Bool.and_eq_true] at hwf
      simp only [renderChunks] at hlen ⊢
      rw [fpF_skip_lit s fuel (renderChunks r)
        (by simp only [List.all_eq_true]
            intro x hx
            simpa using (braceFreeB_mem s hwf.1 x hx).1)
        (by simpa using hlen)]
      rw [ih (fuel - s.length) hwf.2
        (by simp only [List.length_append] at hlen; omega)]
      rfl
    | ph n =>
      simp only [chunksWF, Bool.and_eq_true] at hwf
      simp only [renderChunks] at hlen ⊢
      cases fuel with
      | zero => omega
      | succ f =>
        simp only [findPlaceholdersF, if_true]
        have hfc := findCloseSeg_name n (renderChunks r) hwf.1
        cases hfcs : findCloseSeg (n ++ '}' :: renderChunks r) with
        | none => rw [hfcs] at hfc; cases hfc
        | some p =>
          rw [hfcs] at hfc
          simp only [Option.map_some', Option.some_inj, Prod.mk.injEq] at hfc
          simp only [phNames]
          rw [hfc.1]
          congr 1
          rw [hfc.2]
          exact ih f hwf.2 (by
            simp only [List.length_cons, List.length_append,
              List.length_cons] at hlen
            omega)

theorem rAPF_skip_lit (s : List Char) : ∀ (fuel : Nat) (p' rep t : List Char),
    s.all (fun c => c != '{') = true → s.length + t.length < fuel →
    replaceAllPatF fuel ('{' :: p') rep (s ++ t) =
      s ++ replaceAllPatF (fuel - s.length) ('{' :: p') rep t := by
  induction s with
  | nil =>
    intro fuel p' rep t _ _
    simp
  | cons c s' ih =>
    intro fuel p' rep t hb hlen
    simp only [List.all_cons, Bool.and_eq_true, bne_iff_ne, ne_eq] at hb
    cases fuel with
    | zero => omega
    | succ f =>
      simp only [List.cons_append, replaceAllPatF]
      rw [if_neg (by
        rintro ⟨-, hp⟩
        simp only [isPre, Bool.and_eq_true, beq_iff_eq] at hp
        exact hb.1 hp.1.symm)]
      rw [ih f p' rep t hb.2 (by simp only [List.length_cons] at hlen; omega)]
      have harith : f - s'.length = (f + 1) - (c :: s').length := by
        simp only [List.length_cons]
        omega
      rw [harith]

theorem rAPF_render (cs : List Chunk) : ∀ (fuel : Nat) (n v : List Char),
    phNameOk n = true → chunksWF cs = true →
    (renderChunks cs).length < fuel →
    replaceAllPatF fuel ('{' :: (n ++ ['}'])) v (renderChunks cs) =
      renderChunks (substChunk n v cs) := by
  induction cs with
  | nil =>
    intro fuel n v _ _ hlen
    cases fuel with
    | zero => omega
    | succ f => rfl
  | cons c r ih =>
    intro fuel n v hn hwf hlen
    cases c with
    | lit s =>
      simp only [chunksWF, Bool.and_eq_true] at hwf
      simp only [renderChunks, substChunk] at hlen ⊢
      rw [rAPF_skip_lit s fuel (n ++ ['}']) v (renderChunks r)
        (by simp only [List.all_eq_true]
            intro x hx
            simpa using (braceFreeB_mem s hwf.1 x hx).1)
        (by simpa using hlen)]
      rw [ih (fuel - s.length) n v hn hwf.2
        (by simp only [List.length_append] at hlen; omega)]
    | ph m =>
      simp only [chunksWF, Bool.and_eq_true] at hwf
      simp only [renderChunks, substChunk] at hlen ⊢
      cases fuel with
      | zero => omega
      | succ f =>
        have hbfm : braceFreeB m = true := by
          have := hwf.1
          simp only [phNameOk, Bool.and_eq_true] at this
          exact this.1
        have hbfn : braceFreeB n = true := by
          simp only [phNameOk, Bool.and_eq_true] at hn
          exact hn.1
        by_cases hmn : m = n
        · subst hmn
          simp only [replaceAllPatF]
          rw [if_pos ⟨by simp, by
            show isPre ('{' :: (m ++ ['}']))
              ('{' :: (m ++ '}' :: renderChunks r)) = true
            simp only [isPre, beq_self_eq_true, Bool.true_and]
            rw [show m ++ '}' :: renderChunks r =
              (m ++ ['}']) ++ renderChunks r from by simp]
            exact isPre_refl_append _ _⟩]
          rw [show ('{' :: (m ++ '}' :: renderChunks r) : List Char) =
            ('{' :: (m ++ ['}'])) ++ renderChunks r from by simp]
          rw [List.drop_left]
          rw [ih f m v hn hwf.2 (by
            simp only [List.length_cons, List.length_append] at hlen ⊢
            omega)]
          simp [renderChunks]
        · simp only [replaceAllPatF]
          rw [if_neg (by
            rintro ⟨-, hp⟩
            simp only [isPre, beq_self_eq_true, Bool.true_and] at hp
            rw [isPre_close_mismatch n m (renderChunks r) hbfn hbfm hmn] at hp
            cases hp)]
          rw [show (m ++ '}' :: renderChunks r : List Char) =
            (m ++ ['}']) ++ renderChunks r from by simp]
          rw [rAPF_skip_lit (m ++ ['}']) f (n ++ ['}']) v (renderChunks r)
            (by
              simp only [List.all_append, Bool.and_eq_true, List.all_cons,
                List.all_nil, Bool.and_true]
              refine ⟨?_, by simp⟩
              simp only [List.all_eq_true]
              intro x hx
              simpa using (braceFreeB_mem m hbfm x hx).1)
            (by
              simp only [List.length_cons, List.length_append,
                List.length_nil] at hlen ⊢
              omega)]
          rw [ih (f - (m ++ ['}']).length) n v hn hwf.2 (by
            simp only [List.length_cons, List.length_append,
              List.length_nil] at hlen ⊢
            omega)]
          simp [renderChunks, hmn]

theorem substChunk_WF (n v : List Char) (cs : List Chunk)
    (hv : braceFreeB v = true) (h : chunksWF cs = true) :
    chunksWF (substChunk n v cs) = true := by
  induction cs with
  | nil => rfl
  | cons c r ih =>
    cases c with
    | lit s =>
      simp only [chunksWF, Bool.and_eq_true] at h
      simp only [substChunk, chunksWF, Bool.and_eq_true]
      exact ⟨h.1, ih h.2⟩
    | ph m =>
      simp only [chunksWF, Bool.and_eq_true] at h
      simp only [substChunk]
      by_cases hmn : m = n
      · simp only [hmn, if_true, chunksWF, Bool.and_eq_true]
        exact ⟨hv, ih h.2⟩
      · simp only [hmn, if_false, chunksWF, Bool.and_eq_true]
        exact ⟨h.1, ih h.2⟩

theorem phNames_substChunk (n v : List Char) (cs : List Chunk) :
    ∀ x ∈ phNames (substChunk n v cs), x ∈ phNames cs ∧ x ≠ n := by
  induction cs with
  | nil => intro x hx; cases hx
  | cons c r ih =>
    cases c with
    | lit s =>
      simp only [substChunk, phNames]
      exact ih
    | ph m =>
      simp only [substChunk, phNames]
      by_cases hmn : m = n
      · simp only [hmn, if_true]
        intro x hx
        have := ih x hx
        exact ⟨List.mem_cons_of_mem _ this.1, this.2⟩
      · simp only [hmn, if_false, phNames]
        intro x hx
        rcases List.mem_cons.mp hx with h1 | h1
        · subst h1
          exact ⟨List.mem_cons_self _ _, hmn⟩
        · have := ih x h1
          exact ⟨List.mem_cons_of_mem _ this.1, this.2⟩

theorem phNames_WF_ok (cs : List Chunk) (h : chunksWF cs = true) :
    ∀ x ∈ phNames cs, phNameOk x = true := by
  induction cs with
  | nil => intro x hx; cases hx
  | cons c r ih =>
    cases c with
    | lit s =>
      simp only [chunksWF, Bool.and_eq_true] at h
      simp only [phNames]
      exact ih h.2
    | ph m =>
      simp only [chunksWF, Bool.and_eq_true] at h
      simp only [phNames]
      intro x hx
      rcases List.mem_cons.mp hx with h1 | h1
      · subst h1; exact h.1
      · exact ih h.2 x h1

theorem render_noPh_braceFree (cs : List Chunk) (h : chunksWF cs = true)
    (hn : phNames cs = []) : braceFreeB (renderChunks cs) = true := by
  induction cs with
  | nil => rfl
  | cons c r ih =>
    cases c with
    | lit s =>
      simp only [chunksWF, Bool.and_eq_true] at h
      simp only [phNames] at hn
      simp only [renderChunks, braceFreeB, List.all_append, Bool.and_eq_true]
      exact ⟨h.1, ih h.2 hn⟩
    | ph m => simp [phNames] at hn

theorem foldl_bind_none {α β : Type} (f : α → β → Option α) (l : List β) :
    l.foldl (fun acc x => acc.bind (fun st => f st x)) Option.none =
      Option.none := by
  induction l with
  | nil => rfl
  | cons x rest ih => simpa using ih

theorem getD_braceFree (bucket : List String) (i : Nat)
    (h : ∀ v ∈ bucket, braceFreeB v.toList = true) :
    braceFreeB (bucket.getD i "").toList = true := by
  by_cases hi : i < bucket.length
  · rw [List.getD_eq_getElem?_getD, List.getElem?_eq_getElem hi]
    exact h _ (List.getElem_mem hi)
  · rw [List.getD_eq_getElem?_getD, List.getElem?_eq_none (by omega)]
    rfl

theorem gen_strSchema_inv (fuel : Nat) (o : Nat → Nat) (k : Nat)
    (r : PyVal × Nat)
    (h : generate_example_value fuel o k
      (.dict [("type", .str "string")]) = some r) :
    r = (.str "example-string", k) := by
  cases fuel with
  | zero => cases h
  | succ f =>
    rw [show generate_example_value (f + 1) o k
      (.dict [("type", .str "string")]) =
        some (.str "example-string", k) from rfl] at h
    exact (Option.some_inj.mp h).symm

theorem shapeFalse_of_braceFree (v : String)
    (h : braceFreeB v.toList = true) :
    (pyStartsWith v "\x7b" && pyEndsWith v "\x7d") = false := by
  unfold pyStartsWith
  cases hv : v.toList with
  | nil => rfl
  | cons c rest =>
    have hc := braceFreeB_mem _ (hv ▸ h) c (by simp)
    show (isPre ['{'] (c :: rest) && _) = false
    simp only [isPre, Bool.and_true, Bool.and_eq_false_iff]
    left
    simpa using fun he => hc.1 he.symm

theorem braced_toList (p : List Char) :
    ("\x7b" ++ String.mk p ++ "\x7d").toList = '{' :: (p ++ ['}']) := by
  show (['{'] ++ p) ++ ['}'] = '{' :: (p ++ ['}'])
  simp

theorem subList_brace_false (s : List Char) (h : braceFreeB s = true) :
    ∀ mid, subList ('{' :: (mid ++ ['}'])) s = false := by
  induction s with
  | nil => intro mid; rfl
  | cons c rest ih =>
    intro mid
    have hc := braceFreeB_mem _ h c (by simp)
    have hr : braceFreeB rest = true := by
      simp only [braceFreeB, List.all_cons, Bool.and_eq_true] at h
      exact h.2
    simp only [subList, isPre, Bool.or_eq_false_iff, Bool.and_eq_false_iff]
    constructor
    · left
      simpa using fun he => hc.1 he.symm
    · exact ih hr mid

theorem resolveOnePh_render (fuel : Nat) (o : Nat → Nat)
    (table : List (String × List String)) (params : List PyVal)
    (cs : List Chunk) (k : Nat) (p : List Char) (st' : String × Nat)
    (hwf : chunksWF cs = true) (hp : phNameOk p = true)
    (htable : ∀ e ∈ table, ∀ v ∈ e.2, braceFreeB v.toList = true)
    (hgen : ∀ (k' : Nat) (r : PyVal × Nat),
      generate_example_value fuel o k'
        ((pathParamSchema params (String.mk p)).getD
          (.dict [("type", .str "string")])) = some r →
      braceFreeB (pyStr r.1).toList = true)
    (hres : resolveOnePh fuel o table params
      (String.mk (renderChunks cs), k) p = some st') :
    ∃ v, braceFreeB v = true ∧
      st'.1 = String.mk (renderChunks (substChunk p v cs)) ∧
      chunksWF (substChunk p v cs) = true := by
  have hrepl : ∀ rep : String,
      pyReplace (String.mk (renderChunks cs))
        ("\x7b" ++ String.mk p ++ "\x7d") rep =
      String.mk (renderChunks (substChunk p rep.toList cs)) := by
    intro rep
    unfold pyReplace replaceAllPat
    rw [braced_toList]
    rw [show (String.mk (renderChunks cs)).toList = renderChunks cs from rfl]
    rw [rAPF_render cs ((renderChunks cs).length + 1) p rep.toList hp hwf
      (by omega)]
  unfold resolveOnePh at hres
  dsimp only at hres
  cases hmk : get_matching_key (String.mk p) table with
  | some key =>
    rw [hmk] at hres
    dsimp only at hres
    split at hres
    · rename_i hcond
      have hbucket : ∀ v ∈ ((table.find? (fun e => e.1 == key)).elim []
          Prod.snd), braceFreeB v.toList = true := by
        cases hfd : table.find? (fun e => e.1 == key) with
        | none => intro v hv; cases hv
        | some e =>
          intro v hv
          exact htable e (List.mem_of_find?_eq_some hfd) v hv
      rw [hrepl] at hres
      refine ⟨(((table.find? (fun e => e.1 == key)).elim [] Prod.snd).getD
          (o k % ((table.find? (fun e => e.1 == key)).elim []
            Prod.snd).length) "").toList,
        getD_braceFree _ _ hbucket, ?_,
        substChunk_WF _ _ _ (getD_braceFree _ _ hbucket) hwf⟩
      exact (congrArg Prod.fst (Option.some_inj.mp hres)).symm
    · cases hg : generate_example_value fuel o k
        ((pathParamSchema params (String.mk p)).getD
          (.dict [("type", .str "string")])) with
      | none => rw [hg] at hres; cases hres
      | some r =>
        rw [hg] at hres
        simp only [Option.map_some', Option.some_inj] at hres
        rw [hrepl] at hres
        refine ⟨(pyStr r.1).toList, hgen k r hg, ?_, ?_⟩
        · rw [← hres]
        · exact substChunk_WF _ _ _ (hgen k r hg) hwf
  | none =>
    rw [hmk] at hres
    dsimp only at hres
    cases hg : generate_example_value fuel o k
        ((pathParamSchema params (String.mk p)).getD
          (.dict [("type", .str "string")])) with
    | none => rw [hg] at hres; cases hres
    | some r =>
      rw [hg] at hres
      simp only [Option.map_some', Option.some_inj] at hres
      rw [hrepl] at hres
      refine ⟨(pyStr r.1).toList, hgen k r hg, ?_, ?_⟩
      · rw [← hres]
      · exact substChunk_WF _ _ _ (hgen k r hg) hwf

theorem resolveFold_render (phs : List (List Char)) :
    ∀ (cs : List Chunk) (k : Nat) (fuel : Nat) (o : Nat → Nat)
      (table : List (String × List String)) (params : List PyVal),
    chunksWF cs = true →
    (∀ p ∈ phs, phNameOk p = true) →
    (∀ x ∈ phNames cs, x ∈ phs) →
    (∀ e ∈ table, ∀ v ∈ e.2, braceFreeB v.toList = true) →
    (∀ (p : List Char) (k' : Nat) (r : PyVal × Nat),
      generate_example_value fuel o k'
        ((pathParamSchema params (String.mk p)).getD
          (.dict [("type", .str "string")])) = some r →
      braceFreeB (pyStr r.1).toList = true) →
    ∀ res, phs.foldl (fun acc ph => acc.bind (fun st =>
        resolveOnePh fuel o table params st ph))
      (some (String.mk (renderChunks cs), k)) = some res →
    braceFreeB res.1.toList = true := by
  induction phs with
  | nil =>
    intro cs k fuel o table params hwf _ hsub _ _ res hres
    simp only [List.foldl_nil, Option.some_inj] at hres
    have hnames : phNames cs = [] := by
      cases hn : phNames cs with
      | nil => rfl
      | cons x r =>
        exact absurd (hsub x (by rw [hn]; exact List.mem_cons_self _ _))
          (List.not_mem_nil x)
    rw [← hres]
    exact render_noPh_braceFree cs hwf hnames
  | cons p rest ih =>
    intro cs k fuel o table params hwf hok hsub htable hgen res hres
    simp only [List.foldl_cons, Option.some_bind] at hres
    cases hstep : resolveOnePh fuel o table params
        (String.mk (renderChunks cs), k) p with
    | none =>
      rw [hstep, foldl_bind_none] at hres
      cases hres
    | some st1 =>
      rw [hstep] at hres
      rcases resolveOnePh_render fuel o table params cs k p st1 hwf
        (hok p (List.mem_cons_self _ _)) htable
        (fun k' r hr => hgen p k' r hr) hstep with ⟨v, hv, hst1, hwf1⟩
      have hst1' : st1 = (String.mk (renderChunks (substChunk p v cs)), st1.2) := by
        rw [← hst1]
      rw [hst1'] at hres
      exact ih (substChunk p v cs) st1.2 fuel o table params hwf1
        (fun q hq => hok q (List.mem_cons_of_mem _ hq))
        (fun x hx => by
          have := phNames_substChunk p v cs x hx
          rcases List.mem_cons.mp (hsub x this.1) with h1 | h1
          · exact absurd h1 this.2
          · exact h1)
        htable hgen res hres

theorem headerFold_shape (hs : List (String × String)) :
    ∀ (acc : List (String × String)) (k : Nat) (fuel : Nat) (o : Nat → Nat)
      (table : List (String × List String)),
    (∀ e ∈ table, ∀ v ∈ e.2, braceFreeB v.toList = true) →
    (∀ p ∈ acc, (pyStartsWith p.2 "\x7b" && pyEndsWith p.2 "\x7d") = false) →
    ∀ res, hs.foldl (fun acc2 h => acc2.bind (fun st =>
        resolveOneHeader fuel o table st h)) (some (acc, k)) = some res →
    ∀ p ∈ res.1, (pyStartsWith p.2 "\x7b" && pyEndsWith p.2 "\x7d") = false := by
  induction hs with
  | nil =>
    intro acc k fuel o table _ hacc res hres
    simp only [List.foldl_nil, Option.some_inj] at hres
    rw [← hres]
    exact hacc
  | cons h0 hs' ih =>
    intro acc k fuel o table htable hacc res hres
    simp only [List.foldl_cons, Option.some_bind] at hres
    cases hstep : resolveOneHeader fuel o table (acc, k) h0 with
    | none =>
      rw [hstep, foldl_bind_none] at hres
      cases hres
    | some st1 =>
      rw [hstep] at hres
      have hst1 : ∀ p ∈ st1.1,
          (pyStartsWith p.2 "\x7b" && pyEndsWith p.2 "\x7d") = false := by
        unfold resolveOneHeader at hstep
        dsimp only at hstep
        split at hstep
        · rename_i hshape
          cases hmk : get_matching_key (stripBraces h0.2) table with
          | some mk0 =>
            rw [hmk] at hstep
            dsimp only at hstep
            split at hstep
            · rename_i hcond
              have hbucket : ∀ v ∈ ((table.find? (fun e => e.1 == mk0)).elim
                  [] Prod.snd), braceFreeB v.toList = true := by
                cases hfd : table.find? (fun e => e.1 == mk0) with
                | none => intro v hv; cases hv
                | some e =>
                  intro v hv
                  exact htable e (List.mem_of_find?_eq_some hfd) v hv
              rw [← Option.some_inj.mp hstep]
              intro p hp
              rcases List.mem_append.mp hp with h1 | h1
              · exact hacc p h1
              · rw [List.mem_singleton.mp h1]
                exact shapeFalse_of_braceFree _ (getD_braceFree _ _ hbucket)
            · cases hg : generate_example_value fuel o k
                  (.dict [("type", .str "string")]) with
              | none => rw [hg] at hstep; cases hstep
              | some r =>
                rw [hg] at hstep
                simp only [Option.map_some', Option.some_inj] at hstep
                have hr := gen_strSchema_inv fuel o k r hg
                rw [← hstep]
                intro p hp
                rcases List.mem_append.mp hp with h1 | h1
                · exact hacc p h1
                · rw [List.mem_singleton.mp h1]
                  rw [hr]
                  show (pyStartsWith "example-string" "\x7b"
                    && pyEndsWith "example-string" "\x7d") = false
                  decide
          | none =>
            rw [hmk] at hstep
            dsimp only at hstep
            cases hg : generate_example_value fuel o k
                (.dict [("type", .str "string")]) with
            | none => rw [hg] at hstep; cases hstep
            | some r =>
              rw [hg] at hstep
              simp only [Option.map_some', Option.some_inj] at hstep
              have hr := gen_strSchema_inv fuel o k r hg
              rw [← hstep]
              intro p hp
              rcases List.mem_append.mp hp with h1 | h1
              · exact hacc p h1
              · rw [List.mem_singleton.mp h1]
                rw [hr]
                show (pyStartsWith "example-string" "\x7b"
                  && pyEndsWith "example-string" "\x7d") = false
                decide
        · rename_i hshape
          rw [← Option.some_inj.mp hstep]
          intro p hp
          rcases List.mem_append.mp hp with h1 | h1
          · exact hacc p h1
          · rw [List.mem_singleton.mp h1]
            simpa using hshape
      have hst1' : st1 = (st1.1, st1.2) := rfl
      rw [hst1'] at hres
      exact ih st1.1 st1.2 fuel o table htable hst1 res hres

/-- C7 (amended): for every request whose url renders a well-formed
chunk list (brace-free literal segments alternating with `{name}`
placeholders whose names are brace- and newline-free), every dynamic-ID
table whose stored values are brace-free, and every oracle under which
each schema-derived fallback value serializes without braces, a
successful `RESOLVE_DEPENDENCIES` returns a request whose url contains
no brace at all (hence no `{...}` substring) and no header value of the
exact shape `{name}`.  The brace-free side conditions are necessary:
see the counterexample. -/
theorem resolve_dependencies_no_placeholder
    (fuel : Nat) (o : Nat → Nat) (request : PyRequest)
    (table : List (String × List String)) (k : Nat) (cs : List Chunk)
    (res : PyRequest × Nat)
    (hurl : request.url = String.mk (renderChunks cs))
    (hwf : chunksWF cs = true)
    (htable : ∀ e ∈ table, ∀ v ∈ e.2, braceFreeB v.toList = true)
    (hgen : ∀ (p : List Char) (q : Nat) (r : PyVal × Nat),
      generate_example_value fuel o q
        ((pathParamSchema request.parameters (String.mk p)).getD
          (.dict [("type", .str "string")])) = some r →
      braceFreeB (pyStr r.1).toList = true)
    (hres : RESOLVE_DEPENDENCIES fuel o request table k = some res) :
    braceFreeB res.1.url.toList = true ∧
    (∀ mid, subList ('{' :: (mid ++ ['}'])) res.1.url.toList = false) ∧
    ∀ p ∈ res.1.headers,
      (pyStartsWith p.2 "\x7b" && pyEndsWith p.2 "\x7d") = false := by
  unfold RESOLVE_DEPENDENCIES at hres
  dsimp only at hres
  rw [hurl] at hres
  have hfp : findPlaceholders (String.mk (renderChunks cs)).toList =
      phNames cs :=
    fpF_render cs ((renderChunks cs).length + 1) hwf (Nat.lt_succ_self _)
  rw [hfp] at hres
  cases hfold : (phNames cs).foldl
      (fun acc ph => acc.bind (fun st =>
        resolveOnePh fuel o table request.parameters st ph))
      (some (String.mk (renderChunks cs), k)) with
  | none => rw [hfold] at hres; cases hres
  | some urlSt =>
    rw [hfold] at hres
    have hurlBF : braceFreeB urlSt.1.toList = true :=
      resolveFold_render (phNames cs) cs k fuel o table request.parameters
        hwf (phNames_WF_ok cs hwf) (fun x hx => hx) htable
        (fun p q r h => hgen p q r h) urlSt hfold
    simp only [Option.some_bind] at hres
    cases hhd : request.headers.foldl
        (fun acc h => acc.bind (fun st =>
          resolveOneHeader fuel o table st h)) (some ([], urlSt.2)) with
    | none => rw [hhd] at hres; cases hres
    | some hdrSt =>
      rw [hhd] at hres
      simp only [Option.map_some', Option.some_inj] at hres
      have hhdr : ∀ p ∈ hdrSt.1,
          (pyStartsWith p.2 "\x7b" && pyEndsWith p.2 "\x7d") = false :=
        headerFold_shape request.headers [] urlSt.2 fuel o table htable
          (fun p hp => absurd hp (List.not_mem_nil p)) hdrSt hhd
      rw [← hres]
      exact ⟨hurlBF, subList_brace_false _ hurlBF, hhdr⟩

/-- C7 witness: resolving `GET /a/{id}` with header
`X-Auth: {id}` against the table `{"id": ["7"]}` substitutes `7`
everywhere, and the theorem applies with the chunk view
`[lit "/a/", ph "id"]`. -/
theorem resolve_dependencies_no_placeholder_witness :
    RESOLVE_DEPENDENCIES 1 zeroOracle reqPlaceholder [("id", ["7"])] 0 =
      some resolvedFix ∧
    braceFreeB resolvedFix.1.url.toList = true ∧
    (∀ mid, subList ('{' :: (mid ++ ['}'])) resolvedFix.1.url.toList =
      false) ∧
    ∀ p ∈ resolvedFix.1.headers,
      (pyStartsWith p.2 "\x7b" && pyEndsWith p.2 "\x7d") = false :=
  ⟨rfl,
    resolve_dependencies_no_placeholder 1 zeroOracle reqPlaceholder
      [("id", ["7"])] 0 [.lit "/a/".toList, .ph "id".toList] resolvedFix
      rfl rfl (by decide)
      (fun p q r h => by
        have hr := gen_strSchema_inv 1 zeroOracle q r h
        rw [hr]
        show braceFreeB (pyStr (.str "example-string")).toList = true
        decide)
      rfl⟩

/-- C7 counterexample to the unconditional claim: `RESOLVE_DEPENDENCIES`
does not sanitize the substituted values, so a table value that is
itself `"{x}"` is written verbatim into the url and the header:
the result url `/a/{x}` still contains a `{...}` placeholder and
the header value has the exact shape `{name}`. -/
theorem resolve_dependencies_placeholder_counterexample :
    (RESOLVE_DEPENDENCIES 1 zeroOracle reqPlaceholder
        [("id", ["{x}"])] 0).map (fun r => r.1.url) = some "/a/{x}" ∧
    subList ('{' :: ("x".toList ++ ['}'])) "/a/{x}".toList = true ∧
    (RESOLVE_DEPENDENCIES 1 zeroOracle reqPlaceholder
        [("id", ["{x}"])] 0).map (fun r => r.1.headers) =
      some [("X-Auth", "{x}")] ∧
    (pyStartsWith "{x}" "\x7b" && pyEndsWith "{x}" "\x7d") = true :=
  ⟨rfl, by decide, rfl, by decide⟩

end Fuzzer
